import Mathlib

/-!
Verification of the two-level tree tour structure of `cykl-rs`
(`src/tour/twoleveltree.rs`).

The Rust pointer graph (`Rc`/`RefCell`/`Weak`) is embedded as an arena:
vertices and parent (segment) records live in lists indexed by stable
integers, and every `Weak` reference field becomes an `Option Nat` index
(`none` models a dangling `Weak::new()`).  Sequential interior mutation is
modelled by explicit state passing; operations that can panic return
`Except Unit`.
-/

namespace Cykl

/-- In-place update of the `i`-th element of a list, identity out of range.
Models a write through an `Rc` handle into the arena. -/
def listModify (l : List α) (i : Nat) (f : α → α) : List α :=
  match l, i with
  | [], _ => []
  | a :: t, 0 => f a :: t
  | a :: t, n + 1 => a :: listModify t n f

@[simp] theorem length_listModify (l : List α) (i : Nat) (f : α → α) :
    (listModify l i f).length = l.length := by
  induction l generalizing i with
  | nil => rfl
  | cons a t ih =>
    cases i with
    | zero => rfl
    | succ n => simp [listModify, ih]

theorem getElem?_listModify (l : List α) (i : Nat) (f : α → α) (j : Nat) :
    (listModify l i f)[j]? = if j = i then (l[j]?).map f else l[j]? := by
  induction l generalizing i j with
  | nil => simp [listModify]
  | cons a t ih =>
    cases i with
    | zero =>
      cases j with
      | zero => simp [listModify]
      | succ jj => simp [listModify]
    | succ n =>
      cases j with
      | zero => simp [listModify]
      | succ jj => simpa [listModify, Nat.succ_inj] using ih n jj

/-- The detached sentinel `usize::MAX` used for `seq_id`. -/
def usizeMax : Nat := 18446744073709551615

/-- Modelled from the spec: the modular betweenness helper `between` of the
tour module (`src/tour/mod.rs` is not among the sources; only its tests,
in `src/tour/tests.rs`, are): true iff `seq(a) < seq(b) < seq(c)`
cyclically. -/
def between (x y z : Nat) : Bool :=
  if x < z then decide (x < y) && decide (y < z)
  else decide (x < y) || decide (y < z)

example : between 1 3 4 = true := by decide
example : between 1 5 4 = false := by decide
example : between 5 1 3 = true := by decide
example : between 5 3 1 = false := by decide

/-- `TltVertex`: one record per node.  `node` is the node index (the `Node`
payload reduced to its index; coordinates live in the external container).
`prev`/`next`/`parent` are weak references modelled as arena indices. -/
structure TltVertex where
  seq_id : Nat
  node : Nat
  visited : Bool
  prev : Option Nat
  next : Option Nat
  parent : Option Nat
  deriving Repr, DecidableEq, Inhabited

/-- `TltVertex::new`: detached vertex for node `i`. -/
def TltVertex.new (i : Nat) : TltVertex :=
  { seq_id := usizeMax, node := i, visited := false,
    prev := none, next := none, parent := none }

/-- `ParentVertex`: one record per segment. -/
structure ParentVertex where
  id : Nat
  size : Nat
  max_size : Nat
  reverse : Bool
  prev : Option Nat
  next : Option Nat
  first : Option Nat
  last : Option Nat
  deriving Repr, DecidableEq, Inhabited

/-- `ParentVertex::new`. -/
def ParentVertex.new (id max_size : Nat) : ParentVertex :=
  { id := id, size := 0, max_size := max_size, reverse := false,
    prev := none, next := none, first := none, last := none }

/-- The tour structure.  The borrowed `Container` is reduced to its distance
function (`S` is the scalar type; the Rust code uses `f64`). -/
structure TwoLevelTree (S : Type) where
  dist : Nat → Nat → S
  vertices : List TltVertex
  parents : List ParentVertex
  total_dist : S

namespace TwoLevelTree

variable {S : Type}

/-- `TwoLevelTree::new(container, max_groupsize)`. -/
def new [Zero S] (dist : Nat → Nat → S) (n max_groupsize : Nat) : TwoLevelTree S :=
  { dist := dist
    vertices := (List.range n).map TltVertex.new
    parents := (List.range (n / max_groupsize + 1)).map
      (fun id => ParentVertex.new id max_groupsize)
    total_dist := 0 }

/-- Write through a vertex handle. -/
def modV (t : TwoLevelTree S) (i : Nat) (f : TltVertex → TltVertex) : TwoLevelTree S :=
  { t with vertices := listModify t.vertices i f }

/-- Write through a parent handle. -/
def modP (t : TwoLevelTree S) (i : Nat) (f : ParentVertex → ParentVertex) : TwoLevelTree S :=
  { t with parents := listModify t.parents i f }

@[simp] theorem modV_vertices (t : TwoLevelTree S) (i : Nat) (f : TltVertex → TltVertex) :
    (t.modV i f).vertices = listModify t.vertices i f := rfl
@[simp] theorem modV_parents (t : TwoLevelTree S) (i : Nat) (f : TltVertex → TltVertex) :
    (t.modV i f).parents = t.parents := rfl
@[simp] theorem modV_dist (t : TwoLevelTree S) (i : Nat) (f : TltVertex → TltVertex) :
    (t.modV i f).dist = t.dist := rfl
@[simp] theorem modV_total (t : TwoLevelTree S) (i : Nat) (f : TltVertex → TltVertex) :
    (t.modV i f).total_dist = t.total_dist := rfl
@[simp] theorem modP_vertices (t : TwoLevelTree S) (i : Nat) (f : ParentVertex → ParentVertex) :
    (t.modP i f).vertices = t.vertices := rfl
@[simp] theorem modP_parents (t : TwoLevelTree S) (i : Nat) (f : ParentVertex → ParentVertex) :
    (t.modP i f).parents = listModify t.parents i f := rfl
@[simp] theorem modP_dist (t : TwoLevelTree S) (i : Nat) (f : ParentVertex → ParentVertex) :
    (t.modP i f).dist = t.dist := rfl
@[simp] theorem modP_total (t : TwoLevelTree S) (i : Nat) (f : ParentVertex → ParentVertex) :
    (t.modP i f).total_dist = t.total_dist := rfl

/-- One iteration of the inner loop of `Tour::apply` for `TwoLevelTree`
(`twoleveltree.rs` lines 81-112), for vertex slot `iv` of the segment `ip`
with stored bounds `beg`/`endd` and the tour length `vLen` read at entry.
The `Vec` index panic and the two `unwrap`s on vertex lookups become
`Except.error`. -/
def applyStep [Add S] (order : List Nat) (ip beg endd vLen : Nat) (s : TwoLevelTree S)
    (iv : Nat) : Except Unit (TwoLevelTree S) :=
  match order[iv]? with
  | none => .error ()
  | some tv =>
    match s.vertices[tv]? with
    | none => .error ()
    | some _ =>
      let s := s.modV tv (fun v => { v with seq_id := iv - beg })
      let s := s.modV tv (fun v => { v with parent := some ip })
      let s := if iv == beg then s.modP ip (fun p => { p with first := some tv }) else s
      let s := if iv == endd - 1 then s.modP ip (fun p => { p with last := some tv }) else s
      match order[(iv + 1) % vLen]? with
      | none => .error ()
      | some tn =>
        match s.vertices[tn]? with
        | none => .error ()
        | some _ =>
          let tpRes : Except Unit Nat :=
            if iv == 0 then
              (if s.vertices.isEmpty then .error () else .ok (s.vertices.length - 1))
            else
              match order[iv - 1]? with
              | none => .error ()
              | some x =>
                match s.vertices[x]? with
                | none => .error ()
                | some _ => .ok x
          match tpRes with
          | .error e => .error e
          | .ok tp =>
            let s := s.modV tv (fun v => { v with next := some tn })
            let s := s.modV tn (fun v => { v with prev := some tv })
            let s := s.modV tv (fun v => { v with prev := some tp })
            let s := s.modV tp (fun v => { v with next := some tv })
            let s := { s with total_dist := (s.total_dist +
              s.dist ((s.vertices.getD tv default).node) ((s.vertices.getD tn default).node) : S) }
            let s := s.modP ip (fun p => { p with size := p.size + 1 })
            let s := s.modV tv (fun v => { v with visited := false })
            .ok s

/-- One iteration of the outer loop of `Tour::apply` (lines 62-113): reset
and relink segment `ip`, then run the inner loop over its vertex slots. -/
def applySeg [Add S] (order : List Nat) (pLen vLen : Nat) (s : TwoLevelTree S) (ip : Nat) :
    Except Unit (TwoLevelTree S) :=
  let nip := (ip + 1) % pLen
  let pip := if ip == 0 then pLen - 1 else ip - 1
  let s := s.modP ip (fun p => { p with size := 0 })
  let s := s.modP ip (fun p => { p with next := some nip })
  let s := s.modP nip (fun p => { p with prev := some ip })
  let s := s.modP ip (fun p => { p with prev := some pip })
  let s := s.modP pip (fun p => { p with next := some ip })
  let ms := (s.parents.getD ip default).max_size
  let beg := ip * ms
  let endd := min (beg + ms) vLen
  (List.range' beg (endd - beg)).foldlM (fun s2 iv => applyStep order ip beg endd vLen s2 iv) s

/-- `Tour::apply` for `TwoLevelTree` (lines 54-114), with index panics and
`unwrap`s surfaced as `Except.error`. -/
def applyE (order : List Nat) (t : TwoLevelTree S) [Add S] [Zero S] :
    Except Unit (TwoLevelTree S) :=
  let pLen := t.parents.length
  let vLen := t.vertices.length
  let t0 : TwoLevelTree S := { t with total_dist := 0 }
  (List.range pLen).foldlM (fun s ip => applySeg order pLen vLen s ip) t0

/-- `Tour::get` (lines 180-186). -/
def get (t : TwoLevelTree S) (node_idx : Nat) : Option TltVertex :=
  t.vertices[node_idx]?

/-- `Tour::next` (lines 188-205): resolve the logical successor through the
segment's `reverse` flag. -/
def nextV (t : TwoLevelTree S) (v : TltVertex) : Option TltVertex :=
  match v.parent with
  | some pj =>
    match t.parents[pj]? with
    | some p =>
      match (if p.reverse then v.prev else v.next) with
      | some k => t.vertices[k]?
      | none => none
    | none => none
  | none => none

/-- `Tour::prev` (lines 230-247). -/
def prevV (t : TwoLevelTree S) (v : TltVertex) : Option TltVertex :=
  match v.parent with
  | some pj =>
    match t.parents[pj]? with
    | some p =>
      match (if p.reverse then v.next else v.prev) with
      | some k => t.vertices[k]?
      | none => none
    | none => none
  | none => none

/-- `Tour::next_at` (lines 209-228); the source repeats the body of `next`
after an indexed lookup. -/
def next_at (t : TwoLevelTree S) (node_idx : Nat) : Option TltVertex :=
  match t.vertices[node_idx]? with
  | some v =>
    match v.parent with
    | some pj =>
      match t.parents[pj]? with
      | some p =>
        match (if p.reverse then v.prev else v.next) with
        | some k => t.vertices[k]?
        | none => none
      | none => none
    | none => none
  | none => none

/-- `Tour::prev_at` (lines 252-270). -/
def prev_at (t : TwoLevelTree S) (node_idx : Nat) : Option TltVertex :=
  match t.vertices[node_idx]? with
  | some v =>
    match v.parent with
    | some pj =>
      match t.parents[pj]? with
      | some p =>
        match (if p.reverse then v.next else v.prev) with
        | some k => t.vertices[k]?
        | none => none
      | none => none
    | none => none
  | none => none

/-- The unchecked parent-id read `(&*wp.as_ptr()).borrow().id` of the
all-distinct arm of `between` (lines 145-151).  For a live parent handle it
yields that parent's `id`; on a dangling `Weak` the Rust read is undefined
behaviour, which the model collapses to `0` (no claim exercises that case).
-/
def derefParentId (t : TwoLevelTree S) (w : Option Nat) : Nat :=
  match w with
  | some i => (t.parents.getD i default).id
  | none => 0

/-- `Tour::between` (lines 116-157).  The `panic!` arm for the impossible
combinations of pairwise parent equalities becomes `Except.error`. -/
def betweenV (t : TwoLevelTree S) (fromv midv tov : TltVertex) : Except Unit Bool :=
  match (fromv.parent == midv.parent), (midv.parent == tov.parent),
      (tov.parent == fromv.parent) with
  | true, true, true => .ok (between fromv.seq_id midv.seq_id tov.seq_id)
  | true, false, false =>
    .ok (match fromv.parent with
      | some pi =>
        match t.parents[pi]? with
        | some p => xor p.reverse (decide (fromv.seq_id ≤ midv.seq_id))
        | none => false
      | none => false)
  | false, true, false =>
    .ok (match midv.parent with
      | some pi =>
        match t.parents[pi]? with
        | some p => xor p.reverse (decide (midv.seq_id ≤ tov.seq_id))
        | none => false
      | none => false)
  | false, false, true =>
    .ok (match tov.parent with
      | some pi =>
        match t.parents[pi]? with
        | some p => xor p.reverse (decide (tov.seq_id ≤ fromv.seq_id))
        | none => false
      | none => false)
  | false, false, false =>
    .ok (between (derefParentId t fromv.parent) (derefParentId t midv.parent)
      (derefParentId t tov.parent))
  | _, _, _ => .error ()

/-- `Tour::between_at` (lines 160-165). -/
def between_at (t : TwoLevelTree S) (from_idx mid_idx to_idx : Nat) : Except Unit Bool :=
  match get t from_idx, get t mid_idx, get t to_idx with
  | some f, some m, some to1 => betweenV t f m to1
  | _, _, _ => .ok false

/-- `Tour::visited_at` (lines 288-290): an unchecked `Vec` index, so an
out-of-range index panics (`Except.error`). -/
def visited_at (t : TwoLevelTree S) (kin_index : Nat) (flag : Bool) :
    Except Unit (TwoLevelTree S) :=
  if kin_index < t.vertices.length then
    .ok (t.modV kin_index (fun v => { v with visited := flag }))
  else .error ()

/-- `Tour::total_distance` (lines 284-286). -/
def total_distance (t : TwoLevelTree S) : S := t.total_dist

/-- `ParentVertex::reverse` (lines 394-455), applied to the parent at index
`ip`: rewire the boundary links according to the neighbours' orientation,
then toggle the flag. -/
def parentReverse (t : TwoLevelTree S) (ip : Nat) : TwoLevelTree S :=
  match t.parents[ip]? with
  | none => t
  | some p =>
    let t1 :=
      match p.first, p.last with
      | some fi, some li =>
        match t.vertices[fi]?, t.vertices[li]? with
        | some fv, some lv =>
          let tmp_prev := if p.reverse then lv.next else fv.prev
          let tmp_next := if p.reverse then fv.prev else lv.next
          let tA :=
            match tmp_prev, p.prev with
            | some pc, some pp =>
              match t.parents[pp]? with
              | some prevP =>
                match prevP.reverse, p.reverse with
                | true, true =>
                  (t.modV pc (fun v => { v with prev := some fi })).modV fi
                    (fun v => { v with prev := some pc })
                | true, false =>
                  (t.modV pc (fun v => { v with prev := some li })).modV li
                    (fun v => { v with next := some pc })
                | false, true =>
                  (t.modV pc (fun v => { v with next := some fi })).modV fi
                    (fun v => { v with prev := some pc })
                | false, false =>
                  (t.modV pc (fun v => { v with next := some li })).modV li
                    (fun v => { v with next := some pc })
              | none => t
            | _, _ => t
          let tB :=
            match tmp_next, p.next with
            | some nc, some np =>
              match tA.parents[np]? with
              | some nextP =>
                match p.reverse, nextP.reverse with
                | true, true =>
                  (tA.modV li (fun v => { v with next := some nc })).modV nc
                    (fun v => { v with next := some li })
                | true, false =>
                  (tA.modV li (fun v => { v with next := some nc })).modV nc
                    (fun v => { v with prev := some li })
                | false, true =>
                  (tA.modV fi (fun v => { v with prev := some nc })).modV nc
                    (fun v => { v with next := some fi })
                | false, false =>
                  (tA.modV fi (fun v => { v with prev := some nc })).modV nc
                    (fun v => { v with prev := some fi })
              | none => tA
            | _, _ => tA
          tB
        | _, _ => t
      | _, _ => t
    t1.modP ip (fun q => { q with reverse := !q.reverse })

/-- Logical successor at the index level: `get` composed with `next`,
projected back to the node index (how the test walk `test_tree_order`
traverses the tour). -/
def succAt (t : TwoLevelTree S) (i : Nat) : Option Nat :=
  ((t.vertices[i]?).bind (fun v => nextV t v)).map (fun v => v.node)

/-- Walk `k` successor steps from node index `i`, recording the visited
node indices (staying put if the successor is absent). -/
def walkIdx (t : TwoLevelTree S) : Nat → Nat → List Nat
  | 0, _ => []
  | k + 1, i => i :: walkIdx t k ((succAt t i).getD i)

end TwoLevelTree

/-!
### Characterization of `apply`

The invariants below describe the state of the tree during `apply` on a
fresh tree: after processing the first `c` tour positions, and with the
first `a` segments set up.  They record the exact contents of every vertex
and parent record, including the transient boundary writes that the loop
later overwrites.
-/

open TwoLevelTree

/-- Number of tour positions covered by the first `j` segments. -/
def segE (m n j : Nat) : Nat := min (j * m) n

/-- Record of the vertex at tour position `i` once position `i < c` has been
processed.  Two transient exceptions: position 0 temporarily holds the raw
index `n - 1` as predecessor (`self.vertices.last()`), and when the first
processed vertex happens to be node `n - 1` its forward link is the
self-referential write of iteration 0. -/
def procV (order : List Nat) (n m c i : Nat) : TltVertex :=
  { seq_id := i % m
    node := order.getD i 0
    visited := false
    prev := some (if i = 0 ∧ c < n then n - 1 else order.getD ((i + n - 1) % n) 0)
    next := some (if order.getD i 0 = n - 1 ∧ c = 1 then n - 1 else order.getD ((i + 1) % n) 0)
    parent := some (i / m) }

/-- Record of the vertex at tour position `i ≥ c` not yet processed: fresh,
except for the look-ahead predecessor written into position `c` by
iteration `c - 1`, and the forward link written into node `n - 1` by
iteration 0. -/
def pendV (order : List Nat) (n c i : Nat) : TltVertex :=
  { seq_id := usizeMax
    node := order.getD i 0
    visited := false
    prev := if i = c ∧ 0 < c then some (order.getD (c - 1) 0) else none
    next := if order.getD i 0 = n - 1 ∧ 0 < c then some (order.getD 0 0) else none
    parent := none }

/-- Parent record of a fully processed segment `j`. -/
def donePar (order : List Nat) (n m P j : Nat) : ParentVertex :=
  { id := j, size := segE m n (j + 1) - segE m n j, max_size := m, reverse := false
    prev := some ((j + P - 1) % P)
    next := some ((j + 1) % P)
    first := if j * m < n then some (order.getD (j * m) 0) else none
    last := if j * m < n then some (order.getD (segE m n (j + 1) - 1) 0) else none }

/-- Parent record of the segment `a` currently being filled, `c` positions
processed overall. -/
def curPar (order : List Nat) (n m P a c : Nat) : ParentVertex :=
  { id := a, size := c - segE m n a, max_size := m, reverse := false
    prev := some ((a + P - 1) % P)
    next := some ((a + 1) % P)
    first := if segE m n a < c then some (order.getD (segE m n a) 0) else none
    last := if c = segE m n (a + 1) ∧ segE m n a < c then
        some (order.getD (segE m n (a + 1) - 1) 0)
      else none }

/-- Parent record of a segment `j > a` not yet set up, after the setup of
segment `a` ran: fresh except for the cross-writes of neighbouring setups. -/
def pendPar (m P a j : Nat) : ParentVertex :=
  { ParentVertex.new j m with
    prev := if j = a + 1 then some a else none
    next := if j = P - 1 then some 0 else none }

/-- Parent record of a segment `j ≥ a` before the setup of segment `a` ran
(segments `0..a` fully done). -/
def prePar (m P a j : Nat) : ParentVertex :=
  { ParentVertex.new j m with
    prev := if j = a ∧ 0 < a then some (a - 1) else none
    next := if j = P - 1 ∧ 0 < a then some 0 else none }

/-- Running total distance after `c` processed positions. -/
def partialSum [Add S] [Zero S] (dist : Nat → Nat → S) (order : List Nat) (n c : Nat) : S :=
  ((List.range c).map (fun i => dist (order.getD i 0) (order.getD ((i + 1) % n) 0))).foldl
    (· + ·) 0

/-- Shared part of the `apply` loop invariant: lengths, distance function,
vertex records and the running total. -/
structure InvBase [Add S] [Zero S] (dist : Nat → Nat → S) (order : List Nat)
    (n m P c : Nat) (s : TwoLevelTree S) : Prop where
  hlv : s.vertices.length = n
  hlp : s.parents.length = P
  hdist : s.dist = dist
  hproc : ∀ i, i < c → s.vertices[order.getD i 0]? = some (procV order n m c i)
  hpend : ∀ i, c ≤ i → i < n → s.vertices[order.getD i 0]? = some (pendV order n c i)
  htot : s.total_dist = partialSum dist order n c

/-- Invariant inside the inner loop of segment `a` (`segE m n a ≤ c ≤
segE m n (a+1)`, segment `a` set up). -/
structure InvMid [Add S] [Zero S] (dist : Nat → Nat → S) (order : List Nat)
    (n m P a c : Nat) (s : TwoLevelTree S) : Prop where
  base : InvBase dist order n m P c s
  hdoneP : ∀ j, j < a → s.parents[j]? = some (donePar order n m P j)
  hcurP : s.parents[a]? = some (curPar order n m P a c)
  hpendP : ∀ j, a < j → j < P → s.parents[j]? = some (pendPar m P a j)

/-- Invariant between outer iterations: segments `0..a` fully processed,
setup of segment `a` not yet run. -/
structure Inv0 [Add S] [Zero S] (dist : Nat → Nat → S) (order : List Nat)
    (n m P a : Nat) (s : TwoLevelTree S) : Prop where
  base : InvBase dist order n m P (segE m n a) s
  hdoneP : ∀ j, j < a → s.parents[j]? = some (donePar order n m P j)
  hpreP : ∀ j, a ≤ j → j < P → s.parents[j]? = some (prePar m P a j)

/-- The pure state transformer performed by a successful `applyStep` with
resolved tour neighbours `tv`, `tn`, `tp`. -/
def stepPure {S : Type} [Add S] (ip beg endd tv tn tp iv : Nat) (s : TwoLevelTree S) : TwoLevelTree S :=
  let s := s.modV tv (fun v => { v with seq_id := iv - beg })
  let s := s.modV tv (fun v => { v with parent := some ip })
  let s := if iv == beg then s.modP ip (fun p => { p with first := some tv }) else s
  let s := if iv == endd - 1 then s.modP ip (fun p => { p with last := some tv }) else s
  let s := s.modV tv (fun v => { v with next := some tn })
  let s := s.modV tn (fun v => { v with prev := some tv })
  let s := s.modV tv (fun v => { v with prev := some tp })
  let s := s.modV tp (fun v => { v with next := some tv })
  let s := { s with total_dist := (s.total_dist +
    s.dist ((s.vertices.getD tv default).node) ((s.vertices.getD tn default).node) : S) }
  let s := s.modP ip (fun p => { p with size := p.size + 1 })
  s.modV tv (fun v => { v with visited := false })

/-- Net effect of one inner-loop iteration on the parent record of the
current segment. -/
def stepParent (beg endd tv iv : Nat) (p : ParentVertex) : ParentVertex :=
  let p := if iv == beg then { p with first := some tv } else p
  let p := if iv == endd - 1 then { p with last := some tv } else p
  { p with size := p.size + 1 }

/-- Conditional arena write (for the boundary `first`/`last` writes). -/
def listModifyIf {α : Type _} (b : Bool) (l : List α) (i : Nat) (f : α → α) : List α :=
  if b then listModify l i f else l

/-- The five parent writes at the head of one outer-loop iteration of
`apply` (lines 71-76). -/
def setupPure {S : Type} (pLen ip : Nat) (s : TwoLevelTree S) : TwoLevelTree S :=
  let nip := (ip + 1) % pLen
  let pip := if ip == 0 then pLen - 1 else ip - 1
  ((((s.modP ip (fun p => { p with size := 0 })).modP ip
      (fun p => { p with next := some nip })).modP nip
      (fun p => { p with prev := some ip })).modP ip
      (fun p => { p with prev := some pip })).modP pip
      (fun p => { p with next := some ip })

/-- Final vertex record after a complete `apply` on a fresh tree. -/
def finalV (order : List Nat) (n m i : Nat) : TltVertex :=
  { seq_id := i % m
    node := order.getD i 0
    visited := false
    prev := some (order.getD ((i + n - 1) % n) 0)
    next := some (order.getD ((i + 1) % n) 0)
    parent := some (i / m) }

/-- A three-node tree whose segment 0 still carries `reverse = true` from
earlier local-search moves; `apply` never clears the flag. -/
def staleFlagTree : TwoLevelTree Nat :=
  TwoLevelTree.modP (TwoLevelTree.new (fun _ _ => 0) 3 2) 0
    (fun p => { p with reverse := true })

/-- The tour order with the positions `[a, b)` reversed in place. -/
def reverseBlock (l : List Nat) (a b : Nat) : List Nat :=
  l.take a ++ ((l.drop a).take (b - a)).reverse ++ l.drop b

/-- Vertex record at tour position `q` after `ParentVertex::reverse` ran on
segment `j` of a tour fresh from `apply`: the four boundary links are
rewired, everything else keeps its `apply` value. -/
def finalVrev (order : List Nat) (n m j q : Nat) : TltVertex :=
  { finalV order n m q with
    next :=
      if q = (j * m + n - 1) % n then some (order.getD (segE m n (j + 1) - 1) 0)
      else if q = segE m n (j + 1) - 1 then some (order.getD ((j * m + n - 1) % n) 0)
      else some (order.getD ((q + 1) % n) 0)
    prev :=
      if q = j * m then some (order.getD (segE m n (j + 1) % n) 0)
      else if q = segE m n (j + 1) % n then some (order.getD (j * m) 0)
      else some (order.getD ((q + n - 1) % n) 0) }

/-- Successor position in the tour after reversing segment `j`: inside the
block walk backwards (exiting at the block head), outside the block walk
forwards (entering the block at its tail). -/
def succPos (n m j q : Nat) : Nat :=
  if j * m ≤ q ∧ q < segE m n (j + 1) then
    if q = j * m then segE m n (j + 1) % n else (q + n - 1) % n
  else
    if q = (j * m + n - 1) % n then segE m n (j + 1) - 1
    else (q + 1) % n

/-- Zero distance function used by the behavioural test instances. -/
def zeroDist : Nat → Nat → Nat := fun _ _ => 0

/-- A tiny two-vertex tour with its single segment marked reversed, used to
instantiate the link-resolution contract. -/
def tinyRev : TwoLevelTree Nat :=
  { dist := zeroDist
    vertices := [{ seq_id := 0, node := 0, visited := false, prev := some 1, next := some 1, parent := some 0 }, { seq_id := 1, node := 1, visited := false, prev := some 0, next := some 0, parent := some 0 }]
    parents := [{ id := 0, size := 2, max_size := 2, reverse := true, prev := some 0, next := some 0, first := some 0, last := some 1 }]
    total_dist := 0 }

/-- `Tour::flip_at` for `TwoLevelTree` (lines 174-177): the body is
`todo!()`, so every call panics. -/
def flip_at {S : Type} (t : TwoLevelTree S) (from_a to_a from_b to_b : Nat) :
    Except Unit (TwoLevelTree S) :=
  .error ()

/-- Modelled from the spec: the order-level meaning of `flip(a,b,c,d)`
(§4.2) where `b` is the tour successor of `a` and `d` the tour successor
of `c` — remove arcs `(a,b)` and `(c,d)` and reverse the arc running from
`b` to `c`.  Returns `none` when the four nodes do not form two distinct
existing tour edges. -/
def flipOrder (l : List Nat) (a b c d : Nat) : Option (List Nat) :=
  let n := l.length
  let pa := l.indexOf a
  let pc := l.indexOf c
  let pb := (pa + 1) % n
  let pd := (pc + 1) % n
  if a ∈ l ∧ c ∈ l ∧ l.getD pb 0 = b ∧ l.getD pd 0 = d ∧ pa ≠ pc then
    some (((((l.rotate pb).take ((pc + n - pb) % n + 1)).reverse ++
      (l.rotate pb).drop ((pc + n - pb) % n + 1)).rotate (n - pb)))
  else none

/-- Modelled from the spec: the distance-correctness scenario of §8 places
node `i` at the integer grid point `(i, i)` and measures Euclidean
distance (the coordinate container itself is outside `src/`). -/
noncomputable def gridDist : Nat → Nat → ℝ := fun i j =>
  Real.sqrt (((i : ℝ) - (j : ℝ)) ^ 2 + ((i : ℝ) - (j : ℝ)) ^ 2)

section OrderFacts

variable {n : Nat} {order : List Nat}

theorem perm_length (h : order.Perm (List.range n)) : order.length = n := by
  simpa using h.length_eq

theorem perm_nodup (h : order.Perm (List.range n)) : order.Nodup :=
  h.nodup_iff.mpr (List.nodup_range n)

theorem perm_getElem? (h : order.Perm (List.range n)) (i : Nat) (hi : i < n) :
    order[i]? = some (order.getD i 0) := by
  have hl : i < order.length := by rw [perm_length h]; exact hi
  rw [List.getD_eq_getElem?_getD, List.getElem?_eq_getElem hl]
  rfl

theorem perm_getD_lt (h : order.Perm (List.range n)) (i : Nat) (hi : i < n) :
    order.getD i 0 < n := by
  have hl : i < order.length := by rw [perm_length h]; exact hi
  have hmem : order.getD i 0 ∈ order := by
    rw [List.getD_eq_getElem?_getD, List.getElem?_eq_getElem hl]
    exact List.getElem_mem hl
  have := h.mem_iff.mp hmem
  simpa using this

theorem perm_getD_inj (h : order.Perm (List.range n)) (i j : Nat) (hi : i < n) (hj : j < n)
    (hij : order.getD i 0 = order.getD j 0) : i = j := by
  have hnd := perm_nodup h
  have hl : order.length = n := perm_length h
  have hi' : i < order.length := hl ▸ hi
  have hj' : j < order.length := hl ▸ hj
  rw [List.getD_eq_getElem?_getD, List.getElem?_eq_getElem hi', Option.getD_some] at hij
  rw [List.getD_eq_getElem?_getD, List.getElem?_eq_getElem hj', Option.getD_some] at hij
  exact hnd.getElem_inj_iff.mp hij

end OrderFacts

section ModFacts

theorem mod_succ_lt {i n : Nat} (h : i < n) :
    (i + 1) % n = if i + 1 = n then 0 else i + 1 := by
  split
  case isTrue heq => rw [heq, Nat.mod_self]
  case isFalse hne => exact Nat.mod_eq_of_lt (by omega)

theorem mod_pred_lt {i n : Nat} (h : i < n) :
    (i + n - 1) % n = if i = 0 then n - 1 else i - 1 := by
  split
  case isTrue heq =>
    subst heq
    have h0 : 0 + n - 1 = n - 1 := by omega
    rw [h0]
    exact Nat.mod_eq_of_lt (by omega)
  case isFalse hne =>
    have : i + n - 1 = (i - 1) + n := by omega
    rw [this, Nat.add_mod_right]
    exact Nat.mod_eq_of_lt (by omega)

theorem div_eq_seg {a m iv : Nat} (hm : 0 < m) (hlo : a * m ≤ iv) (hhi : iv < a * m + m) :
    iv / m = a := by
  have h1 : iv / m < a + 1 := by
    rw [Nat.div_lt_iff_lt_mul hm]
    have : (a + 1) * m = a * m + m := by ring
    omega
  have h2 : a ≤ iv / m := by
    rw [Nat.le_div_iff_mul_le hm]
    exact hlo
  omega

theorem mod_eq_seg {a m iv : Nat} (hm : 0 < m) (hlo : a * m ≤ iv) (hhi : iv < a * m + m) :
    iv - a * m = iv % m := by
  have h := Nat.mod_add_div iv m
  have h2 := div_eq_seg hm hlo hhi
  rw [h2, Nat.mul_comm] at h
  omega

end ModFacts

section StepLemma

theorem vertices_ite' {S : Type} (b : Bool) (t1 t2 : TwoLevelTree S) :
    (if b then t1 else t2).vertices = if b then t1.vertices else t2.vertices := by
  cases b <;> simp

theorem isEmpty_false_of_pos {α : Type _} {l : List α} (h : 0 < l.length) :
    l.isEmpty = false := by
  cases l with
  | nil => simp at h
  | cons a t => rfl

variable {S : Type} [Add S]


theorem applyStep_eq_ok {order : List Nat} {ip beg endd vLen iv tv tn tp : Nat}
    {s : TwoLevelTree S}
    (htv : order[iv]? = some tv) (h1 : tv < s.vertices.length)
    (htn : order[(iv + 1) % vLen]? = some tn) (h2 : tn < s.vertices.length)
    (htp : (iv = 0 ∧ 0 < s.vertices.length ∧ tp = s.vertices.length - 1) ∨
      (0 < iv ∧ order[iv - 1]? = some tp ∧ tp < s.vertices.length)) :
    applyStep order ip beg endd vLen s iv = .ok (stepPure ip beg endd tv tn tp iv s) := by
  have hv0 : s.vertices[tv]? = some (s.vertices.get ⟨tv, h1⟩) := List.getElem?_eq_getElem h1
  rcases htp with ⟨hiv0, hpos, htpv⟩ | ⟨hivpos, hordtp, htplt⟩
  · subst hiv0
    simp only [applyStep, stepPure, htv, hv0, htn]
    have hlen2 : tn < (listModify (listModify s.vertices tv
        (fun v => { v with seq_id := 0 - beg })) tv
        (fun v => { v with parent := some ip })).length := by
      simpa using h2
    simp only [modV_vertices, modP_vertices, vertices_ite', ite_self,
      List.getElem?_eq_getElem hlen2]
    have hne : (listModify (listModify s.vertices tv
        (fun v => { v with seq_id := 0 - beg })) tv
        (fun v => { v with parent := some ip })).isEmpty = false :=
      isEmpty_false_of_pos (by simpa using hpos)
    simp only [hne, length_listModify, htpv]
    rfl
  · have hne0 : (iv == 0) = false := by
      simp only [beq_eq_false_iff_ne, ne_eq]
      omega
    simp only [applyStep, stepPure, htv, hv0, htn, hne0]
    have hlen2 : tn < (listModify (listModify s.vertices tv
        (fun v => { v with seq_id := iv - beg })) tv
        (fun v => { v with parent := some ip })).length := by
      simpa using h2
    have hlen3 : tp < (listModify (listModify s.vertices tv
        (fun v => { v with seq_id := iv - beg })) tv
        (fun v => { v with parent := some ip })).length := by
      simpa using htplt
    simp only [modV_vertices, modP_vertices, vertices_ite', ite_self,
      List.getElem?_eq_getElem hlen2, hordtp, List.getElem?_eq_getElem hlen3]
    rfl

theorem parents_ite' (b : Bool) (t1 t2 : TwoLevelTree S) :
    (if b then t1 else t2).parents = if b then t1.parents else t2.parents := by
  cases b <;> simp

theorem dist_ite' (b : Bool) (t1 t2 : TwoLevelTree S) :
    (if b then t1 else t2).dist = if b then t1.dist else t2.dist := by
  cases b <;> simp

theorem total_ite' (b : Bool) (t1 t2 : TwoLevelTree S) :
    (if b then t1 else t2).total_dist = if b then t1.total_dist else t2.total_dist := by
  cases b <;> simp


theorem stepPure_dist {ip beg endd tv tn tp iv : Nat} {s : TwoLevelTree S} :
    (stepPure ip beg endd tv tn tp iv s).dist = s.dist := by
  simp only [stepPure, modV_dist, modP_dist, dist_ite', ite_self]

theorem getElem?_ite {α : Type _} (b : Bool) (l1 l2 : List α) (j : Nat) :
    (if b then l1 else l2)[j]? = if b then l1[j]? else l2[j]? := by
  cases b <;> simp


@[simp] theorem listModifyIf_true (l : List α) (i : Nat) (f : α → α) :
    listModifyIf true l i f = listModify l i f := rfl
@[simp] theorem listModifyIf_false (l : List α) (i : Nat) (f : α → α) :
    listModifyIf false l i f = l := rfl

theorem stepPure_vertices_eq {ip beg endd tv tn tp iv : Nat} {s : TwoLevelTree S} :
    (stepPure ip beg endd tv tn tp iv s).vertices =
      listModify (listModify (listModify (listModify (listModify (listModify (listModify
        s.vertices
        tv (fun v => { v with seq_id := iv - beg }))
        tv (fun v => { v with parent := some ip }))
        tv (fun v => { v with next := some tn }))
        tn (fun v => { v with prev := some tv }))
        tv (fun v => { v with prev := some tp }))
        tp (fun v => { v with next := some tv }))
        tv (fun v => { v with visited := false }) := by
  simp only [stepPure, modV_vertices, modP_vertices, vertices_ite', ite_self]

theorem stepPure_parents_eq {ip beg endd tv tn tp iv : Nat} {s : TwoLevelTree S} :
    (stepPure ip beg endd tv tn tp iv s).parents =
      listModify
        (listModifyIf (iv == endd - 1)
          (listModifyIf (iv == beg) s.parents ip (fun p => { p with first := some tv }))
          ip (fun p => { p with last := some tv }))
        ip (fun p => { p with size := p.size + 1 }) := by
  cases hb1 : (iv == beg) <;> cases hb2 : (iv == endd - 1) <;>
    simp only [stepPure, hb1, hb2, modV_parents, modP_parents, parents_ite',
      ite_self, listModifyIf_true, listModifyIf_false, if_true, if_false,
      Bool.false_eq_true, ite_true, ite_false]

theorem stepPure_dist_eq {ip beg endd tv tn tp iv : Nat} {s : TwoLevelTree S} :
    (stepPure ip beg endd tv tn tp iv s).dist = s.dist := stepPure_dist

theorem getD_node_listModify (l : List TltVertex) (i x : Nat) (f : TltVertex → TltVertex)
    (h : ∀ v, (f v).node = v.node) :
    (((listModify l i f)[x]?).getD default).node = ((l[x]?).getD default).node := by
  rw [getElem?_listModify]
  split
  · cases l[x]? <;> simp [h]
  · rfl

theorem stepPure_total_eq {ip beg endd tv tn tp iv : Nat} {s : TwoLevelTree S} :
    (stepPure ip beg endd tv tn tp iv s).total_dist =
      s.total_dist + s.dist ((s.vertices.getD tv default).node)
        ((s.vertices.getD tn default).node) := by
  have hraw : (stepPure ip beg endd tv tn tp iv s).total_dist =
      s.total_dist + s.dist
        (((listModify (listModify (listModify (listModify (listModify (listModify
          s.vertices
          tv (fun v => { v with seq_id := iv - beg }))
          tv (fun v => { v with parent := some ip }))
          tv (fun v => { v with next := some tn }))
          tn (fun v => { v with prev := some tv }))
          tv (fun v => { v with prev := some tp }))
          tp (fun v => { v with next := some tv })).getD tv default).node)
        (((listModify (listModify (listModify (listModify (listModify (listModify
          s.vertices
          tv (fun v => { v with seq_id := iv - beg }))
          tv (fun v => { v with parent := some ip }))
          tv (fun v => { v with next := some tn }))
          tn (fun v => { v with prev := some tv }))
          tv (fun v => { v with prev := some tp }))
          tp (fun v => { v with next := some tv })).getD tn default).node) := by
    simp only [stepPure, modV_total, modP_total, modV_dist, modP_dist, modV_vertices,
      modP_vertices, total_ite', dist_ite', vertices_ite', ite_self]
  rw [hraw]
  simp [getD_node_listModify]

end StepLemma


open TwoLevelTree

theorem partialSum_succ {S : Type} [Add S] [Zero S] (dist : Nat → Nat → S) (order : List Nat)
    (n c : Nat) :
    partialSum dist order n (c + 1) =
      partialSum dist order n c + dist (order.getD c 0) (order.getD ((c + 1) % n) 0) := by
  unfold partialSum
  rw [List.range_succ, List.map_append, List.foldl_append]
  rfl

theorem perm_getD_inj_iff {n : Nat} {order : List Nat} (hperm : order.Perm (List.range n))
    {i j : Nat} (hi : i < n) (hj : j < n) :
    order.getD i 0 = order.getD j 0 ↔ i = j :=
  ⟨perm_getD_inj hperm i j hi hj, fun h => by rw [h]⟩

section InvStep

variable {S : Type} [Add S] [Zero S] {dist : Nat → Nat → S} {order : List Nat}
variable {n m P a c tv tn tp : Nat} {s : TwoLevelTree S}

theorem invStep_proc
    (hm : 0 < m) (hperm : order.Perm (List.range n))
    (hc1 : a * m ≤ c) (hc2 : c < segE m n (a + 1))
    (hinv : InvMid dist order n m P a c s)
    (htv : tv = order.getD c 0) (htn : tn = order.getD ((c + 1) % n) 0)
    (htp : tp = if c = 0 then n - 1 else order.getD (c - 1) 0) :
    ∀ i, i < c + 1 →
      (stepPure a (a * m) (segE m n (a + 1)) tv tn tp c s).vertices[order.getD i 0]? =
        some (procV order n m (c + 1) i) := by
  intro i hi
  have hn : c < n := lt_of_lt_of_le hc2 (Nat.min_le_right _ _)
  have hn0 : 0 < n := by omega
  have hi_n : i < n := by omega
  have hcm : c < a * m + m := by
    have h1 : segE m n (a + 1) ≤ (a + 1) * m := Nat.min_le_left _ _
    have h2 : (a + 1) * m = a * m + m := by ring
    omega
  subst htv htn
  rw [stepPure_vertices_eq]
  simp only [getElem?_listModify]
  by_cases hc0 : c = 0
  · subst hc0
    simp only [if_pos rfl] at htp
    subst htp
    have hi0 : i = 0 := by omega
    subst hi0
    have ha0 : a = 0 := by
      rcases Nat.mul_eq_zero.mp (Nat.le_zero.mp hc1) with h | h
      · exact h
      · omega
    subst ha0
    have hbase := hinv.base.hpend 0 (Nat.le_refl 0) hn0
    by_cases hn1 : n = 1
    · subst hn1
      have ho0 : order.getD 0 0 = 0 := by
        have := perm_getD_lt hperm 0 hn0
        omega
      have e3 : order.getD 0 0 = 1 - 1 := by omega
      simp only [show ((0 : Nat) + 1) % 1 = 0 from rfl, eq_self_iff_true, eq_true e3,
        if_true, hbase, Option.map_some, Function.comp_apply]
      simp [-List.getD_eq_getElem?_getD, pendV, procV, TltVertex.new, ho0]
    · have h1n : (0 + 1) % n = 1 := Nat.mod_eq_of_lt (by omega)
      have e2 : ¬(order.getD 0 0 = order.getD ((0 + 1) % n) 0) := by
        rw [h1n, perm_getD_inj_iff hperm hn0 (by omega)]
        omega
      have h1lt : 1 < n := by omega
      by_cases hlast : order.getD 0 0 = n - 1
      · simp only [eq_self_iff_true, if_true, eq_false e2, eq_true hlast, if_false,
          hbase, Option.map_some, Function.comp_apply]
        simp [-List.getD_eq_getElem?_getD, pendV, procV, TltVertex.new, hlast, hn1,
          h1lt]
      · simp only [eq_self_iff_true, if_true, eq_false e2, eq_false hlast, if_false,
          hbase, Option.map_some, Function.comp_apply]
        simp [-List.getD_eq_getElem?_getD, pendV, procV, TltVertex.new, hlast, hn1,
          h1lt]
  · have htp2 : tp = order.getD (c - 1) 0 := by rw [htp, if_neg hc0]
    subst htp2
    have hsucc : (c + 1) % n = if c + 1 = n then 0 else c + 1 := mod_succ_lt (by omega)
    have hsucc_lt : (c + 1) % n < n := Nat.mod_lt _ hn0
    have hpred_lt : c - 1 < n := by omega
    simp only [perm_getD_inj_iff hperm hi_n hn, perm_getD_inj_iff hperm hi_n hsucc_lt,
      perm_getD_inj_iff hperm hi_n hpred_lt]
    by_cases hitv : i = c
    · have e1 := eq_true hitv
      have e2 : (i = (c + 1) % n) = False := by
        apply eq_false
        rw [hsucc]
        split <;> omega
      have e3 : (i = c - 1) = False := eq_false (by omega)
      have hbase := hinv.base.hpend i (by omega) hi_n
      have hseq : c - a * m = c % m := mod_eq_seg hm hc1 hcm
      have hdiv : c / m = a := div_eq_seg hm hc1 hcm
      have hpredmod : (c + n - 1) % n = c - 1 := by
        rw [mod_pred_lt hn, if_neg hc0]
      have hne1 : ¬(c + 1 = 1) := by omega
      simp only [e1, e2, e3, if_true, if_false, hbase, Option.map_some,
        Function.comp_apply]
      simp [-List.getD_eq_getElem?_getD, pendV, procV, hitv, hc0, hseq, hdiv, hpredmod, hne1]
    · by_cases hitp : i = c - 1
      · have hlt : i < c := by omega
        have hbase := hinv.base.hproc i hlt
        by_cases hhit : i = (c + 1) % n
        · have hc1n : c = 1 := by
            rw [hsucc] at hhit
            revert hhit
            split <;> omega
          have hn2 : n = 2 := by
            rw [hsucc] at hhit
            revert hhit
            split <;> omega
          subst hc1n hn2
          have hi0 : i = 0 := by omega
          subst hi0
          have e1 := eq_false hitv
          have e2 := eq_true hhit
          have e3 := eq_true hitp
          simp only [e1, e2, e3, if_true, if_false, hbase, Option.map_some,
            Function.comp_apply]
          simp [-List.getD_eq_getElem?_getD, procV]
        · have e1 := eq_false hitv
          have e2 := eq_false hhit
          have e3 := eq_true hitp
          have hnext : (i + 1) % n = c := by
            have h1 : i + 1 = c := by omega
            rw [h1]
            exact Nat.mod_eq_of_lt hn
          have hcondiff : (i = 0 ∧ c < n) = (i = 0 ∧ c + 1 < n) := by
            by_cases hI : i = 0
            · have hcn : ¬(c + 1 = n) := by
                intro habs
                rw [hsucc, if_pos habs] at hhit
                omega
              simp [hI]
              constructor <;> (intro hh; omega)
            · simp [hI]
          have hne1 : ¬(c + 1 = 1) := by omega
          simp only [e1, e2, e3, if_true, if_false, hbase, Option.map_some,
            Function.comp_apply]
          simp [-List.getD_eq_getElem?_getD, procV, hcondiff, hne1, hnext]
      · by_cases hhit : i = (c + 1) % n
        · have hcn : c + 1 = n := by
            rw [hsucc] at hhit
            revert hhit
            split <;> omega
          have hi0 : i = 0 := by
            rw [hsucc, if_pos hcn] at hhit
            exact hhit
          subst hi0
          have hcge2 : 2 ≤ c := by omega
          have hlt : (0 : Nat) < c := by omega
          have hbase := hinv.base.hproc 0 hlt
          have e1 := eq_false hitv
          have e2 := eq_true hhit
          have e3 := eq_false hitp
          have hpredmod : (0 + n - 1) % n = n - 1 := by
            rw [mod_pred_lt hn0, if_pos rfl]
          have hcval : c = n - 1 := by omega
          have hne1 : ¬(c = 1) := by omega
          have hne2 : ¬(c + 1 = 1) := by omega
          have hf1 : ¬(n - 1 + 1 < n) := by omega
          have hf2 : ¬(n = 2) := by omega
          have hf3 : ¬(n - 1 = 0) := by omega
          simp only [e1, e2, e3, if_true, if_false, hbase, Option.map_some,
            Function.comp_apply]
          simp [-List.getD_eq_getElem?_getD, procV, hpredmod, hcval, hne1, hne2, hcn,
            hf1, hf2, hf3]
        · have hlt : i < c := by omega
          have hbase := hinv.base.hproc i hlt
          have e1 := eq_false hitv
          have e2 := eq_false hhit
          have e3 := eq_false hitp
          have hcge2 : 2 ≤ c := by omega
          have hcondiff : (i = 0 ∧ c < n) = (i = 0 ∧ c + 1 < n) := by
            by_cases hI : i = 0
            · have hcn : ¬(c + 1 = n) := by
                intro habs
                rw [hsucc, if_pos habs] at hhit
                omega
              simp [hI]
              constructor <;> (intro hh; omega)
            · simp [hI]
          have hne1 : ¬(c = 1) := by omega
          have hne2 : ¬(c + 1 = 1) := by omega
          simp only [e1, e2, e3, if_true, if_false, hbase, Option.map_some,
            Function.comp_apply]
          simp [-List.getD_eq_getElem?_getD, procV, hcondiff, hne1, hne2]

theorem invStep_pend
    (hm : 0 < m) (hperm : order.Perm (List.range n))
    (hc1 : a * m ≤ c) (hc2 : c < segE m n (a + 1))
    (hinv : InvMid dist order n m P a c s)
    (htv : tv = order.getD c 0) (htn : tn = order.getD ((c + 1) % n) 0)
    (htp : tp = if c = 0 then n - 1 else order.getD (c - 1) 0) :
    ∀ i, c + 1 ≤ i → i < n →
      (stepPure a (a * m) (segE m n (a + 1)) tv tn tp c s).vertices[order.getD i 0]? =
        some (pendV order n (c + 1) i) := by
  intro i hci hi_n
  have hn : c < n := lt_of_lt_of_le hc2 (Nat.min_le_right _ _)
  have hn0 : 0 < n := by omega
  have hbase := hinv.base.hpend i (by omega) hi_n
  subst htv htn
  rw [stepPure_vertices_eq]
  simp only [getElem?_listModify]
  have hc1n : c + 1 < n := by omega
  have hsuccv : (c + 1) % n = c + 1 := Nat.mod_eq_of_lt hc1n
  simp only [hsuccv] at *
  by_cases hi1 : i = c + 1
  · subst hi1
    have e1 : ¬(order.getD (c + 1) 0 = order.getD c 0) := by
      rw [perm_getD_inj_iff hperm hi_n hn]
      omega
    by_cases hc0 : c = 0
    · subst hc0
      simp only [if_pos rfl] at htp
      subst htp
      by_cases hlast : order.getD (0 + 1) 0 = n - 1
      · simp only [eq_self_iff_true, if_true, eq_false e1, eq_true hlast, if_false,
          hbase, Option.map_some, Function.comp_apply]
        simp [-List.getD_eq_getElem?_getD, pendV, hlast]
      · simp only [eq_self_iff_true, if_true, eq_false e1, eq_false hlast, if_false,
          hbase, Option.map_some, Function.comp_apply]
        simp [-List.getD_eq_getElem?_getD, pendV, hlast]
    · have htp2 : tp = order.getD (c - 1) 0 := by rw [htp, if_neg hc0]
      subst htp2
      have e3 : ¬(order.getD (c + 1) 0 = order.getD (c - 1) 0) := by
        rw [perm_getD_inj_iff hperm hi_n (by omega)]
        omega
      have hcpos : 0 < c := by omega
      simp only [eq_self_iff_true, if_true, eq_false e1, eq_false e3, if_false,
        hbase, Option.map_some, Function.comp_apply]
      simp [-List.getD_eq_getElem?_getD, pendV, hc0, hcpos]
  · have e1 : ¬(order.getD i 0 = order.getD c 0) := by
      rw [perm_getD_inj_iff hperm hi_n hn]
      omega
    have e2 : ¬(order.getD i 0 = order.getD (c + 1) 0) := by
      rw [perm_getD_inj_iff hperm hi_n hc1n]
      omega
    by_cases hc0 : c = 0
    · subst hc0
      simp only [if_pos rfl] at htp
      subst htp
      by_cases hlast : order.getD i 0 = n - 1
      · simp only [eq_false e1, eq_false e2, eq_true hlast, if_true, if_false,
          hbase, Option.map_some, Function.comp_apply]
        simp [-List.getD_eq_getElem?_getD, pendV, hi1, hlast]
      · simp only [eq_false e1, eq_false e2, eq_false hlast, if_true, if_false,
          hbase, Option.map_some, Function.comp_apply]
        simp [-List.getD_eq_getElem?_getD, pendV, hi1, hlast]
    · have htp2 : tp = order.getD (c - 1) 0 := by rw [htp, if_neg hc0]
      subst htp2
      have e3 : ¬(order.getD i 0 = order.getD (c - 1) 0) := by
        rw [perm_getD_inj_iff hperm hi_n (by omega)]
        omega
      have hcpos : 0 < c := by omega
      have hine : ¬(i = c) := by omega
      simp only [eq_false e1, eq_false e2, eq_false e3, if_false,
        hbase, Option.map_some, Function.comp_apply]
      simp [-List.getD_eq_getElem?_getD, pendV, hi1, hc0, hcpos, hine]

theorem invStep_parents
    (hm : 0 < m) (hperm : order.Perm (List.range n))
    (hc1 : a * m ≤ c) (hc2 : c < segE m n (a + 1))
    (hinv : InvMid dist order n m P a c s)
    (htv : tv = order.getD c 0) :
    (∀ j, j < a →
      (stepPure a (a * m) (segE m n (a + 1)) tv tn tp c s).parents[j]? =
        some (donePar order n m P j)) ∧
    (stepPure a (a * m) (segE m n (a + 1)) tv tn tp c s).parents[a]? =
      some (curPar order n m P a (c + 1)) ∧
    (∀ j, a < j → j < P →
      (stepPure a (a * m) (segE m n (a + 1)) tv tn tp c s).parents[j]? =
        some (pendPar m P a j)) := by
  have hn : c < n := lt_of_lt_of_le hc2 (Nat.min_le_right _ _)
  have hEa : segE m n a = a * m := by
    have h1 : a * m ≤ n := by omega
    simp [segE, Nat.min_eq_left h1]
  have hunch : ∀ j, ¬(j = a) →
      (stepPure a (a * m) (segE m n (a + 1)) tv tn tp c s).parents[j]? =
        s.parents[j]? := by
    intro j hj
    rw [stepPure_parents_eq]
    cases hb1 : (c == a * m) <;> cases hb2 : (c == segE m n (a + 1) - 1) <;>
      simp [listModifyIf, getElem?_listModify, hj]
  refine ⟨fun j hj => ?_, ?_, fun j hj1 hj2 => ?_⟩
  · rw [hunch j (by omega), hinv.hdoneP j hj]
  · rw [stepPure_parents_eq]
    have hbase := hinv.hcurP
    cases hb1 : (c == a * m) <;> cases hb2 : (c == segE m n (a + 1) - 1)
    · have hb1' : ¬(c = a * m) := by simpa using hb1
      have hb2' : ¬(c = segE m n (a + 1) - 1) := by simpa using hb2
      have hf1 : segE m n a < c := by omega
      have hf2 : segE m n a < c + 1 := by omega
      have hf3 : ¬(c + 1 = segE m n (a + 1)) := by omega
      have hf4 : ¬(c = segE m n (a + 1)) := by omega
      simp [-List.getD_eq_getElem?_getD, listModifyIf, getElem?_listModify, hbase,
        curPar, stepParent, hf1, hf2, hf3, hf4]
      omega
    · have hb1' : ¬(c = a * m) := by simpa using hb1
      have hb2' : c = segE m n (a + 1) - 1 := by simpa using hb2
      have hf1 : segE m n a < c := by omega
      have hf2 : segE m n a < c + 1 := by omega
      have hf3 : c + 1 = segE m n (a + 1) := by omega
      have hf4 : ¬(c = segE m n (a + 1)) := by omega
      have hval : tv = order.getD (segE m n (a + 1) - 1) 0 := by rw [htv, hb2']
      simp [-List.getD_eq_getElem?_getD, listModifyIf, getElem?_listModify, hbase,
        curPar, stepParent, hf1, hf2, hf3, hf4, hval]
      omega
    · have hb1' : c = a * m := by simpa using hb1
      have hb2' : ¬(c = segE m n (a + 1) - 1) := by simpa using hb2
      have hf2 : segE m n a < c + 1 := by omega
      have hf3 : ¬(c + 1 = segE m n (a + 1)) := by omega
      have hf3' : ¬(a * m + 1 = segE m n (a + 1)) := by omega
      have hf5 : ¬(segE m n a < c) := by omega
      have hval : tv = order.getD (segE m n a) 0 := by rw [htv, hb1', hEa]
      simp [-List.getD_eq_getElem?_getD, listModifyIf, getElem?_listModify, hbase,
        curPar, stepParent, hf2, hf3, hf3', hf5, hval]
      omega
    · have hb1' : c = a * m := by simpa using hb1
      have hb2' : c = segE m n (a + 1) - 1 := by simpa using hb2
      have hf2 : segE m n a < c + 1 := by omega
      have hf3 : c + 1 = segE m n (a + 1) := by omega
      have hf3' : a * m + 1 = segE m n (a + 1) := by omega
      have hf5 : ¬(segE m n a < c) := by omega
      have hval : tv = order.getD (segE m n a) 0 := by rw [htv, hb1', hEa]
      have hval2 : tv = order.getD (segE m n (a + 1) - 1) 0 := by rw [htv, hb2']
      simp [-List.getD_eq_getElem?_getD, listModifyIf, getElem?_listModify, hbase,
        curPar, stepParent, hf2, hf3, hf3', hf5, hval, hval2]
      omega
  · rw [hunch j (by omega), hinv.hpendP j hj1 hj2]

theorem invStep_tot
    (hm : 0 < m) (hperm : order.Perm (List.range n))
    (hc1 : a * m ≤ c) (hc2 : c < segE m n (a + 1))
    (hinv : InvMid dist order n m P a c s)
    (htv : tv = order.getD c 0) (htn : tn = order.getD ((c + 1) % n) 0) :
    (stepPure a (a * m) (segE m n (a + 1)) tv tn tp c s).total_dist =
      partialSum dist order n (c + 1) := by
  have hn : c < n := lt_of_lt_of_le hc2 (Nat.min_le_right _ _)
  have hn0 : 0 < n := by omega
  have hnode : ∀ j, j < n →
      (s.vertices.getD (order.getD j 0) default).node = order.getD j 0 := by
    intro j hj
    have h1 : s.vertices.getD (order.getD j 0) default =
        (s.vertices[order.getD j 0]?).getD default := List.getD_eq_getElem?_getD _ _ _
    rw [h1]
    rcases Nat.lt_or_ge j c with h | h
    · rw [hinv.base.hproc j h]
      rfl
    · rw [hinv.base.hpend j h hj]
      rfl
  subst htv htn
  rw [stepPure_total_eq, hinv.base.htot, hinv.base.hdist, partialSum_succ,
    hnode c hn, hnode ((c + 1) % n) (Nat.mod_lt _ hn0)]

@[simp] theorem length_listModifyIf {α : Type _} (b : Bool) (l : List α) (i : Nat)
    (f : α → α) : (listModifyIf b l i f).length = l.length := by
  cases b <;> simp [listModifyIf]

theorem invMid_step
    (hm : 0 < m) (hperm : order.Perm (List.range n))
    (hc1 : a * m ≤ c) (hc2 : c < segE m n (a + 1))
    (hinv : InvMid dist order n m P a c s) :
    applyStep order a (a * m) (segE m n (a + 1)) n s c =
      .ok (stepPure a (a * m) (segE m n (a + 1)) (order.getD c 0)
        (order.getD ((c + 1) % n) 0) (if c = 0 then n - 1 else order.getD (c - 1) 0) c s) ∧
    InvMid dist order n m P a (c + 1)
      (stepPure a (a * m) (segE m n (a + 1)) (order.getD c 0)
        (order.getD ((c + 1) % n) 0) (if c = 0 then n - 1 else order.getD (c - 1) 0) c s) := by
  have hn : c < n := lt_of_lt_of_le hc2 (Nat.min_le_right _ _)
  have hn0 : 0 < n := by omega
  have hlv := hinv.base.hlv
  constructor
  · refine applyStep_eq_ok (perm_getElem? hperm c hn) ?_
      (perm_getElem? hperm _ (Nat.mod_lt _ hn0)) ?_ ?_
    · rw [hlv]
      exact perm_getD_lt hperm c hn
    · rw [hlv]
      exact perm_getD_lt hperm _ (Nat.mod_lt _ hn0)
    · by_cases hc0 : c = 0
      · exact Or.inl ⟨hc0, by omega, by rw [if_pos hc0, hlv]⟩
      · refine Or.inr ⟨by omega, ?_, ?_⟩
        · rw [if_neg hc0]
          exact perm_getElem? hperm _ (by omega)
        · rw [if_neg hc0, hlv]
          exact perm_getD_lt hperm _ (by omega)
  · obtain ⟨hd, hcur, hp⟩ := invStep_parents hm hperm hc1 hc2 hinv rfl
    exact {
      base := {
        hlv := by rw [stepPure_vertices_eq]; simp [hlv]
        hlp := by rw [stepPure_parents_eq]; simp [hinv.base.hlp]
        hdist := by rw [stepPure_dist]; exact hinv.base.hdist
        hproc := invStep_proc hm hperm hc1 hc2 hinv rfl rfl rfl
        hpend := invStep_pend hm hperm hc1 hc2 hinv rfl rfl rfl
        htot := invStep_tot hm hperm hc1 hc2 hinv rfl rfl }
      hdoneP := hd
      hcurP := hcur
      hpendP := hp }

theorem invMid_fold
    (hm : 0 < m) (hperm : order.Perm (List.range n)) :
    ∀ (k c : Nat) (s : TwoLevelTree S), a * m ≤ c → c + k ≤ segE m n (a + 1) →
      InvMid dist order n m P a c s →
      ∃ s2, (List.range' c k).foldlM
          (fun s2 iv => applyStep order a (a * m) (segE m n (a + 1)) n s2 iv) s =
            .ok s2 ∧
        InvMid dist order n m P a (c + k) s2 := by
  intro k
  induction k with
  | zero =>
    intro c s hc1 hck hinv
    exact ⟨s, rfl, by simpa using hinv⟩
  | succ k ih =>
    intro c s hc1 hck hinv
    obtain ⟨hstep, hinv2⟩ := invMid_step hm hperm hc1 (by omega) hinv
    rw [List.range'_succ, List.foldlM_cons, hstep]
    obtain ⟨s2, hfold, hinv3⟩ := ih (c + 1) _ (by omega) (by omega) hinv2
    refine ⟨s2, ?_, ?_⟩
    · simpa using hfold
    · have he : c + 1 + k = c + (k + 1) := by omega
      rwa [he] at hinv3


theorem setupPure_vertices {pLen ip : Nat} {s : TwoLevelTree S} :
    (setupPure pLen ip s).vertices = s.vertices := rfl

theorem setupPure_dist {pLen ip : Nat} {s : TwoLevelTree S} :
    (setupPure pLen ip s).dist = s.dist := rfl

theorem setupPure_total {pLen ip : Nat} {s : TwoLevelTree S} :
    (setupPure pLen ip s).total_dist = s.total_dist := rfl

theorem setupPure_parents_eq {pLen ip : Nat} {s : TwoLevelTree S} :
    (setupPure pLen ip s).parents =
      listModify (listModify (listModify (listModify (listModify s.parents
        ip (fun p => { p with size := 0 }))
        ip (fun p => { p with next := some ((ip + 1) % pLen) }))
        ((ip + 1) % pLen) (fun p => { p with prev := some ip }))
        ip (fun p => { p with prev := some (if ip == 0 then pLen - 1 else ip - 1) }))
        (if ip == 0 then pLen - 1 else ip - 1) (fun p => { p with next := some ip }) := rfl

theorem applySeg_eq_foldlM {order : List Nat} {pLen vLen ip m : Nat} {s : TwoLevelTree S}
    (hms : ((setupPure pLen ip s).parents.getD ip default).max_size = m) :
    applySeg order pLen vLen s ip =
      (List.range' (ip * m) (min (ip * m + m) vLen - ip * m)).foldlM
        (fun s2 iv => applyStep order ip (ip * m) (min (ip * m + m) vLen) vLen s2 iv)
        (setupPure pLen ip s) := by
  rw [applySeg]
  rw [show (((((s.modP ip (fun p => { p with size := 0 })).modP ip
      (fun p => { p with next := some ((ip + 1) % pLen) })).modP ((ip + 1) % pLen)
      (fun p => { p with prev := some ip })).modP ip
      (fun p => { p with prev := some (if ip == 0 then pLen - 1 else ip - 1) })).modP
      (if ip == 0 then pLen - 1 else ip - 1) (fun p => { p with next := some ip })) =
      setupPure pLen ip s from rfl]
  rw [hms]

theorem pip_eq_mod {a P : Nat} (haP : a < P) :
    (if a == 0 then P - 1 else a - 1) = (a + P - 1) % P := by
  by_cases ha0 : a = 0
  · subst ha0
    have h1 : 0 + P - 1 = P - 1 := by omega
    show P - 1 = (0 + P - 1) % P
    rw [h1, Nat.mod_eq_of_lt (by omega)]
  · have hb : (a == 0) = false := by simpa using ha0
    rw [hb]
    simp only [Bool.false_eq_true, if_false]
    have h1 : a + P - 1 = (a - 1) + P := by omega
    rw [h1, Nat.add_mod_right, Nat.mod_eq_of_lt (by omega)]

theorem pip_eq_mod' {a P : Nat} (haP : a < P) :
    (if a = 0 then P - 1 else a - 1) = (a + P - 1) % P := by
  by_cases ha0 : a = 0
  · subst ha0
    rw [if_pos rfl]
    have h1 : 0 + P - 1 = P - 1 := by omega
    rw [h1, Nat.mod_eq_of_lt (by omega)]
  · rw [if_neg ha0]
    have h1 : a + P - 1 = (a - 1) + P := by omega
    rw [h1, Nat.add_mod_right, Nat.mod_eq_of_lt (by omega)]

theorem inv0_setup
    (haP : a < P) (hinv : Inv0 dist order n m P a s) :
    InvMid dist order n m P a (segE m n a) (setupPure P a s) := by
  have hlp := hinv.base.hlp
  have hP0 : 0 < P := by omega
  refine {
    base := {
      hlv := hinv.base.hlv
      hlp := by rw [setupPure_parents_eq]; simp [hlp]
      hdist := hinv.base.hdist
      hproc := hinv.base.hproc
      hpend := hinv.base.hpend
      htot := hinv.base.htot }
    hdoneP := ?_
    hcurP := ?_
    hpendP := ?_ }
  · intro j hj
    have ha1 : ¬(a = 0) := by omega
    have hb : (a == 0) = false := by simpa using ha1
    have hja : ¬(j = a) := by omega
    rw [setupPure_parents_eq]
    simp only [getElem?_listModify, hb, Bool.false_eq_true, if_false]
    by_cases hjp : j = a - 1
    · by_cases hjn : j = (a + 1) % P
      · -- a = 1 and P = 2: both boundary writes, same values
        have hP2 : a + 1 = P ∧ j = 0 := by
          rcases Nat.lt_or_ge (a + 1) P with h | h
          · rw [Nat.mod_eq_of_lt h] at hjn
            omega
          · have hPeq : a + 1 = P := by omega
            rw [hPeq, Nat.mod_self] at hjn
            exact ⟨hPeq, hjn⟩
        obtain ⟨hPeq, hj0⟩ := hP2
        have hval : ((j + 1) % P) = a := by
          subst hj0
          rw [Nat.mod_eq_of_lt (by omega)]
          omega
        have hval2 : ((j + P - 1) % P) = a := by
          subst hj0
          have h1 : 0 + P - 1 = P - 1 := by omega
          rw [h1, Nat.mod_eq_of_lt (by omega)]
          omega
        simp only [eq_true hjp, eq_true hjn, eq_false hja, if_true, if_false,
          hinv.hdoneP j hj, Option.map_some]
        simp [-List.getD_eq_getElem?_getD, donePar, hval, hval2]
      · have hval : ((j + 1) % P) = a := by
          rw [hjp]
          have h1 : a - 1 + 1 = a := by omega
          rw [h1, Nat.mod_eq_of_lt haP]
        simp only [eq_true hjp, eq_false hjn, eq_false hja, if_true, if_false,
          hinv.hdoneP j hj, Option.map_some]
        simp [-List.getD_eq_getElem?_getD, donePar, hval]
    · by_cases hjn : j = (a + 1) % P
      · -- wrap: a = P - 1, j = 0
        have hP2 : a + 1 = P ∧ j = 0 := by
          rcases Nat.lt_or_ge (a + 1) P with h | h
          · rw [Nat.mod_eq_of_lt h] at hjn
            omega
          · have hPeq : a + 1 = P := by omega
            rw [hPeq, Nat.mod_self] at hjn
            exact ⟨hPeq, hjn⟩
        obtain ⟨hPeq, hj0⟩ := hP2
        have hval2 : ((j + P - 1) % P) = a := by
          subst hj0
          have h1 : 0 + P - 1 = P - 1 := by omega
          rw [h1, Nat.mod_eq_of_lt (by omega)]
          omega
        simp only [eq_true hjn, eq_false hjp, eq_false hja, if_true, if_false,
          hinv.hdoneP j hj, Option.map_some]
        simp [-List.getD_eq_getElem?_getD, donePar, hval2]
      · simp only [eq_false hjn, eq_false hjp, eq_false hja, if_false,
          hinv.hdoneP j hj]
  · rw [setupPure_parents_eq]
    simp only [getElem?_listModify]
    have hbase := hinv.hpreP a (Nat.le_refl a) haP
    have hpipm := pip_eq_mod (a := a) (P := P) haP
    by_cases hP1 : P = 1
    · have ha0 : a = 0 := by omega
      subst ha0 hP1
      simp only [eq_self_iff_true, if_true, show ((0 + 1) % 1 : Nat) = 0 from rfl,
        hbase, Option.map_some]
      simp [-List.getD_eq_getElem?_getD, prePar, curPar, ParentVertex.new]
    · have hna : ¬(a = (a + 1) % P) := by
        rcases Nat.lt_or_ge (a + 1) P with h | h
        · rw [Nat.mod_eq_of_lt h]
          omega
        · have hPeq : a + 1 = P := by omega
          rw [hPeq, Nat.mod_self]
          omega
      have hnp : ¬(a = (if a == 0 then P - 1 else a - 1)) := by
        by_cases ha0 : a = 0
        · subst ha0
          simp only [beq_self_eq_true, if_true]
          omega
        · have hb : (a == 0) = false := by simpa using ha0
          rw [hb]
          simp only [Bool.false_eq_true, if_false]
          omega
      have hpipm2 := pip_eq_mod' (a := a) (P := P) haP
      simp only [eq_self_iff_true, if_true, eq_false hna, eq_false hnp, if_false,
        hbase, Option.map_some]
      simp [-List.getD_eq_getElem?_getD, prePar, curPar, ParentVertex.new, hpipm,
        hpipm2]
  · intro j hj1 hj2
    rw [setupPure_parents_eq]
    simp only [getElem?_listModify]
    have hbase := hinv.hpreP j (by omega) hj2
    have hja : ¬(j = a) := by omega
    by_cases hjn : j = (a + 1) % P
    · have hjval : j = a + 1 := by
        rcases Nat.lt_or_ge (a + 1) P with h | h
        · rw [Nat.mod_eq_of_lt h] at hjn
          exact hjn
        · have hPeq : a + 1 = P := by omega
          rw [hPeq, Nat.mod_self] at hjn
          omega
      by_cases hjp : j = (if a == 0 then P - 1 else a - 1)
      · -- a = 0, P = 2, j = 1
        have ha0 : a = 0 := by
          by_cases h : a = 0
          · exact h
          · exfalso
            have hb : (a == 0) = false := by simpa using h
            rw [hb] at hjp
            simp only [Bool.false_eq_true, if_false] at hjp
            omega
        subst ha0
        simp only [beq_self_eq_true, if_true] at hjp
        have hjP : j = P - 1 := hjp
        have hP2 : P = 2 := by omega
        subst hP2
        have hj1v : j = 1 := by omega
        subst hj1v
        simp only [eq_true hjn, eq_true hjp, eq_false hja, if_true, if_false,
          hbase, Option.map_some]
        simp [-List.getD_eq_getElem?_getD, prePar, pendPar, ParentVertex.new]
      · simp only [eq_true hjn, eq_false hjp, eq_false hja, if_true, if_false,
          hbase, Option.map_some]
        have hjnP : j = P - 1 → 0 < a → True := fun _ _ => trivial
        by_cases hjP : j = P - 1
        · have ha1 : 0 < a := by
            by_cases h : a = 0
            · exfalso
              subst h
              have hb : ((0 : Nat) == 0) = true := by simp
              rw [hb] at hjp
              simp only [if_true] at hjp
              exact hjp hjP
            · omega
          simp [-List.getD_eq_getElem?_getD, prePar, pendPar, ParentVertex.new,
            hjval, hjP, ha1]
        · have hf : ¬(a + 1 = P - 1) := by omega
          simp [-List.getD_eq_getElem?_getD, prePar, pendPar, ParentVertex.new,
            hjval, hjP, hf]
    · by_cases hjp : j = (if a == 0 then P - 1 else a - 1)
      · -- a = 0, j = P - 1 (and j ≠ nip)
        have ha0 : a = 0 := by
          by_cases h : a = 0
          · exact h
          · exfalso
            have hb : (a == 0) = false := by simpa using h
            rw [hb] at hjp
            simp only [Bool.false_eq_true, if_false] at hjp
            omega
        subst ha0
        simp only [beq_self_eq_true, if_true] at hjp
        have hj1' : ¬(j = 0 + 1) := by
          intro h
          rw [h] at hjn
          apply hjn
          rw [Nat.mod_eq_of_lt (by omega)]
        have hPge2 : 2 ≤ P := by omega
        have hmod1 : (0 + 1) % P = 1 := Nat.mod_eq_of_lt (by omega)
        have hPne2 : ¬(P = 2) := by
          intro h
          apply hjn
          rw [hmod1]
          omega
        simp only [eq_true hjp, eq_false hjn, eq_false hja, if_true, if_false,
          hbase, Option.map_some]
        simp [-List.getD_eq_getElem?_getD, prePar, pendPar, ParentVertex.new,
          hjp, hj1', hPne2]
      · simp only [eq_false hjn, eq_false hjp, eq_false hja, if_false, hbase]
        have hjval : ¬(j = a + 1) := by
          intro h
          apply hjn
          rw [h]
          rcases Nat.lt_or_ge (a + 1) P with hlt | hge
          · rw [Nat.mod_eq_of_lt hlt]
          · omega
        by_cases hjP : j = P - 1
        · have ha1 : 0 < a := by
            by_cases h : a = 0
            · exfalso
              subst h
              have hb : ((0 : Nat) == 0) = true := by simp
              rw [hb] at hjp
              simp only [if_true] at hjp
              exact hjp hjP
            · omega
          have hf1 : ¬(P - 1 = a) := by omega
          have hf2 : ¬(P = a + 2) := by omega
          simp [-List.getD_eq_getElem?_getD, prePar, pendPar, hjval, hjP, ha1, hja,
            hf1, hf2]
        · simp [-List.getD_eq_getElem?_getD, prePar, pendPar, hjval, hjP, hja]

theorem curPar_at_end {order : List Nat} {n m P a : Nat} (hm : 0 < m) :
    curPar order n m P a (segE m n (a + 1)) = donePar order n m P a := by
  by_cases h : a * m < n
  · have hEa : segE m n a = a * m := by
      simp [segE, Nat.min_eq_left (by omega : a * m ≤ n)]
    have hlt : segE m n a < segE m n (a + 1) := by
      have h2 : (a + 1) * m = a * m + m := by ring
      simp only [segE, hEa]
      rcases Nat.le_total ((a + 1) * m) n with hh | hh
      · rw [Nat.min_eq_left hh]
        omega
      · rw [Nat.min_eq_right hh]
        omega
    simp [curPar, donePar, hEa, hlt, h]
    omega
  · have hEa : segE m n a = n := by
      simp [segE, Nat.min_eq_right (by omega : n ≤ a * m)]
    have hEa1 : segE m n (a + 1) = n := by
      have h2 : (a + 1) * m = a * m + m := by ring
      simp [segE]
      omega
    simp [curPar, donePar, hEa, hEa1, h]

theorem pendPar_eq_prePar {m P a j : Nat} :
    pendPar m P a j = prePar m P (a + 1) j := by
  simp [pendPar, prePar]

theorem invMid_to_inv0
    (hmid : InvMid dist order n m P a (segE m n (a + 1)) s) (hm : 0 < m) :
    Inv0 dist order n m P (a + 1) s := by
  refine {
    base := hmid.base
    hdoneP := ?_
    hpreP := ?_ }
  · intro j hj
    rcases Nat.lt_or_ge j a with h | h
    · exact hmid.hdoneP j h
    · have hja : j = a := by omega
      subst hja
      rw [hmid.hcurP, curPar_at_end hm]
  · intro j hj1 hj2
    rw [hmid.hpendP j (by omega) hj2, pendPar_eq_prePar]

theorem inv0_seg_step
    (hm : 0 < m) (hperm : order.Perm (List.range n))
    (haP : a < P) (hinv : Inv0 dist order n m P a s) :
    ∃ s2, applySeg order P n s a = .ok s2 ∧ Inv0 dist order n m P (a + 1) s2 := by
  have hmid := inv0_setup haP hinv
  have hms : ((setupPure P a s).parents.getD a default).max_size = m := by
    have h := hmid.hcurP
    rw [List.getD_eq_getElem?_getD, h]
    rfl
  rw [applySeg_eq_foldlM hms]
  by_cases hcase : a * m < n
  · have hEa : segE m n a = a * m := by
      simp [segE, Nat.min_eq_left (by omega : a * m ≤ n)]
    have hErange : min (a * m + m) n = segE m n (a + 1) := by
      have h2 : (a + 1) * m = a * m + m := by ring
      simp [segE, h2]
    have hk : a * m + (segE m n (a + 1) - a * m) ≤ segE m n (a + 1) := by
      have : a * m ≤ segE m n (a + 1) := by
        have h2 : (a + 1) * m = a * m + m := by ring
        simp only [segE]
        rcases Nat.le_total ((a + 1) * m) n with hh | hh
        · rw [Nat.min_eq_left hh]
          omega
        · rw [Nat.min_eq_right hh]
          omega
      omega
    rw [hErange]
    obtain ⟨s2, hfold, hinv2⟩ := invMid_fold hm hperm (segE m n (a + 1) - a * m)
      (a * m) (setupPure P a s) (Nat.le_refl _) hk (by rwa [hEa] at hmid)
    refine ⟨s2, hfold, invMid_to_inv0 ?_ hm⟩
    have he : a * m + (segE m n (a + 1) - a * m) = segE m n (a + 1) := by
      have : a * m ≤ segE m n (a + 1) := by
        have h2 : (a + 1) * m = a * m + m := by ring
        simp only [segE]
        rcases Nat.le_total ((a + 1) * m) n with hh | hh
        · rw [Nat.min_eq_left hh]
          omega
        · rw [Nat.min_eq_right hh]
          omega
      omega
    rwa [he] at hinv2
  · have hrange : min (a * m + m) n - a * m = 0 := by
      have : min (a * m + m) n ≤ n := Nat.min_le_right _ _
      omega
    rw [hrange]
    refine ⟨setupPure P a s, rfl, invMid_to_inv0 ?_ hm⟩
    have hEa : segE m n a = n := by
      simp [segE, Nat.min_eq_right (by omega : n ≤ a * m)]
    have hEa1 : segE m n (a + 1) = n := by
      have h2 : (a + 1) * m = a * m + m := by ring
      simp [segE]
      omega
    have h3 : segE m n (a + 1) = segE m n a := by rw [hEa, hEa1]
    rw [h3]
    exact hmid

theorem inv0_fold
    (hm : 0 < m) (hperm : order.Perm (List.range n)) :
    ∀ (k a : Nat) (s : TwoLevelTree S), a + k ≤ P →
      Inv0 dist order n m P a s →
      ∃ s2, (List.range' a k).foldlM (fun s2 ip => applySeg order P n s2 ip) s = .ok s2 ∧
        Inv0 dist order n m P (a + k) s2 := by
  intro k
  induction k with
  | zero =>
    intro a s hk hinv
    exact ⟨s, rfl, by simpa using hinv⟩
  | succ k ih =>
    intro a s hk hinv
    obtain ⟨s1, hstep, hinv1⟩ := inv0_seg_step hm hperm (by omega) hinv
    rw [List.range'_succ, List.foldlM_cons, hstep]
    obtain ⟨s2, hfold, hinv2⟩ := ih (a + 1) s1 (by omega) hinv1
    refine ⟨s2, by simpa using hfold, ?_⟩
    have he : a + 1 + k = a + (k + 1) := by omega
    rwa [he] at hinv2

theorem inv0_start
    (hm : 0 < m) (hperm : order.Perm (List.range n)) :
    Inv0 dist order n m (n / m + 1) 0
      { TwoLevelTree.new dist n m with total_dist := 0 } := by
  refine {
    base := { hlv := ?_, hlp := ?_, hdist := rfl, hproc := ?_, hpend := ?_, htot := ?_ }
    hdoneP := ?_
    hpreP := ?_ }
  · simp [TwoLevelTree.new]
  · simp [TwoLevelTree.new]
  · intro i hi
    simp [segE] at hi
  · intro i hi1 hi2
    have hlt := perm_getD_lt hperm i hi2
    simp [TwoLevelTree.new, List.getElem?_range, hlt, pendV, TltVertex.new, segE,
      -List.getD_eq_getElem?_getD]
  · simp [partialSum, segE]
  · intro j hj
    omega
  · intro j hj1 hj2
    simp [TwoLevelTree.new, List.getElem?_range, hj2, prePar, ParentVertex.new]

theorem applyE_new_inv
    (dist : Nat → Nat → S) (n m : Nat) (order : List Nat)
    (hm : 0 < m) (hperm : order.Perm (List.range n)) :
    ∃ t', applyE order (TwoLevelTree.new dist n m) = .ok t' ∧
      Inv0 dist order n m (n / m + 1) (n / m + 1) t' := by
  have hstart : Inv0 dist order n m (n / m + 1) 0
      { TwoLevelTree.new dist n m with total_dist := 0 } := inv0_start hm hperm
  obtain ⟨t', hfold, hinv⟩ := inv0_fold hm hperm (n / m + 1) 0 _ (by omega) hstart
  refine ⟨t', ?_, by simpa using hinv⟩
  show (List.range (TwoLevelTree.new dist n m).parents.length).foldlM
      (fun s ip => applySeg order (TwoLevelTree.new dist n m).parents.length
        (TwoLevelTree.new dist n m).vertices.length s ip)
      { TwoLevelTree.new dist n m with total_dist := 0 } = .ok t'
  have h1 : (TwoLevelTree.new dist n m).parents.length = n / m + 1 := by
    simp [TwoLevelTree.new]
  have h2 : (TwoLevelTree.new dist n m).vertices.length = n := by
    simp [TwoLevelTree.new]
  rw [h1, h2, List.range_eq_range']
  exact hfold

theorem segE_top (hm : 0 < m) : segE m n (n / m + 1) = n := by
  have h1 := Nat.div_add_mod n m
  have h2 : n % m < m := Nat.mod_lt _ hm
  have h3 : n ≤ (n / m + 1) * m := by
    have h4 : (n / m + 1) * m = n / m * m + m := by ring
    have h5 : n / m * m = m * (n / m) := by ring
    omega
  simp [segE, Nat.min_eq_right h3]


theorem procV_final (hperm : order.Perm (List.range n)) (hi : i < n) :
    procV order n m n i = finalV order n m i := by
  by_cases hn1 : n = 1
  · subst hn1
    have hi0 : i = 0 := by omega
    subst hi0
    have ho0 : order.getD 0 0 = 0 := by
      have := perm_getD_lt hperm 0 (by omega)
      omega
    simp [procV, finalV, ho0, -List.getD_eq_getElem?_getD]
  · simp [procV, finalV, hn1, -List.getD_eq_getElem?_getD]

theorem applyE_new_final
    (dist : Nat → Nat → S) (n m : Nat) (order : List Nat)
    (hm : 0 < m) (hperm : order.Perm (List.range n)) :
    ∃ t', applyE order (TwoLevelTree.new dist n m) = .ok t' ∧
      t'.vertices.length = n ∧
      t'.parents.length = n / m + 1 ∧
      t'.dist = dist ∧
      (∀ i, i < n → t'.vertices[order.getD i 0]? = some (finalV order n m i)) ∧
      (∀ j, j < n / m + 1 →
        t'.parents[j]? = some (donePar order n m (n / m + 1) j)) ∧
      t'.total_dist = partialSum dist order n n := by
  obtain ⟨t', hok, hinv⟩ := applyE_new_inv dist n m order hm hperm
  refine ⟨t', hok, hinv.base.hlv, hinv.base.hlp, hinv.base.hdist, ?_, ?_, ?_⟩
  · intro i hi
    have hc : segE m n (n / m + 1) = n := segE_top hm
    have h := hinv.base.hproc i (by rw [hc]; exact hi)
    rw [hc] at h
    rw [h, procV_final hperm hi]
  · intro j hj
    exact hinv.hdoneP j hj
  · have h := hinv.base.htot
    rwa [segE_top hm] at h

end InvStep

section Walk

variable {S : Type} [Add S] [Zero S] {dist : Nat → Nat → S} {order : List Nat}
variable {n m : Nat} {t : TwoLevelTree S}

theorem succAt_of_final
    (hv : ∀ i, i < n → t.vertices[order.getD i 0]? = some (finalV order n m i))
    (hp : ∀ j, j < n / m + 1 → t.parents[j]? = some (donePar order n m (n / m + 1) j))
    (i : Nat) (hi : i < n) :
    TwoLevelTree.succAt t (order.getD i 0) = some (order.getD ((i + 1) % n) 0) := by
  have hn : 0 < n := by omega
  have hdiv : i / m < n / m + 1 :=
    Nat.lt_succ_of_le (Nat.div_le_div_right (Nat.le_of_lt hi))
  have h2 : (i + 1) % n < n := Nat.mod_lt _ hn
  simp [TwoLevelTree.succAt, TwoLevelTree.nextV, hv i hi, finalV,
    hp (i / m) hdiv, donePar, hv _ h2, -List.getD_eq_getElem?_getD]

theorem walkIdx_of_succ (t : TwoLevelTree S) (l : List Nat) (n : Nat)
    (hsucc : ∀ i, i < n → TwoLevelTree.succAt t (l.getD i 0) = some (l.getD ((i + 1) % n) 0)) :
    ∀ (j k : Nat), k < n → TwoLevelTree.walkIdx t j (l.getD k 0) =
      (List.range j).map (fun s0 => l.getD ((k + s0) % n) 0) := by
  intro j
  induction j with
  | zero => intro k hk; simp [TwoLevelTree.walkIdx]
  | succ j ih =>
    intro k hk
    have hn : 0 < n := by omega
    rw [TwoLevelTree.walkIdx, hsucc k hk, Option.getD_some]
    rw [ih ((k + 1) % n) (Nat.mod_lt _ hn)]
    rw [List.range_succ_eq_map, List.map_cons, List.map_map]
    have hhead : l.getD ((k + 0) % n) 0 = l.getD k 0 := by
      rw [Nat.add_zero, Nat.mod_eq_of_lt hk]
    rw [hhead]
    have hfun : (fun s0 => l.getD (((k + 1) % n + s0) % n) 0)
        = (fun s0 => l.getD ((k + s0) % n) 0) ∘ Nat.succ := by
      funext s0
      show l.getD (((k + 1) % n + s0) % n) 0 = l.getD ((k + (s0 + 1)) % n) 0
      rw [Nat.mod_add_mod]
      have he : k + 1 + s0 = k + (s0 + 1) := by omega
      rw [he]
    rw [hfun]

theorem map_mod_rotate (l : List Nat) (n k : Nat) (hl : l.length = n) (hk : k < n) :
    (List.range n).map (fun s0 => l.getD ((k + s0) % n) 0) = l.drop k ++ l.take k := by
  apply List.ext_getElem
  · simp [hl]; omega
  · intro i h1 h2
    simp only [List.getElem_map, List.getElem_range]
    have hlen1 : (l.drop k).length = n - k := by simp [hl]
    by_cases hc : i < n - k
    · rw [List.getElem_append_left (by rw [hlen1]; exact hc)]
      rw [List.getElem_drop]
      have hm1 : (k + i) % n = k + i := Nat.mod_eq_of_lt (by omega)
      rw [hm1, List.getD_eq_getElem l 0 (by omega)]
    · rw [List.getElem_append_right (by rw [hlen1]; omega)]
      have h1n : i < n := by simp [hl] at h1; omega
      have hm1 : (k + i) % n = i - (n - k) := by
        have hlt : k + i - n < n := by omega
        have h5 : (k + i) % n = (k + i - n) % n := by
          conv =>
            lhs
            rw [show k + i = k + i - n + n by omega]
          rw [Nat.add_mod_right]
        rw [h5, Nat.mod_eq_of_lt hlt]
        omega
      rw [hm1]
      simp only [hlen1, List.getElem_take]
      rw [List.getD_eq_getElem l 0 (by omega)]

theorem perm_surj (hperm : order.Perm (List.range n)) (v : Nat) (hv : v < n) :
    ∃ k, k < n ∧ order.getD k 0 = v := by
  have hmem : v ∈ order := (hperm.mem_iff).2 (List.mem_range.2 hv)
  obtain ⟨k, hk, he⟩ := List.getElem_of_mem hmem
  exact ⟨k, by rw [← perm_length hperm]; exact hk,
    by rw [List.getD_eq_getElem order 0 hk]; exact he⟩

theorem walk_rotation (t : TwoLevelTree S) (l : List Nat) (n : Nat)
    (hl : l.length = n) (hn : 0 < n)
    (hsucc : ∀ i, i < n → TwoLevelTree.succAt t (l.getD i 0) = some (l.getD ((i + 1) % n) 0))
    (k : Nat) (hk : k < n) :
    TwoLevelTree.walkIdx t (n + 1) (l.getD k 0) = (l.drop k ++ l.take k) ++ [l.getD k 0] := by
  rw [walkIdx_of_succ t l n hsucc (n + 1) k hk]
  rw [List.range_succ, List.map_append, List.map_cons, List.map_nil]
  rw [map_mod_rotate l n k hl hk]
  have hlast : l.getD ((k + n) % n) 0 = l.getD k 0 := by
    rw [Nat.add_mod_right, Nat.mod_eq_of_lt hk]
  rw [hlast]

end Walk


/-- C1 counterexample: `apply [0,1,2]` on a tree with a stale segment
`reverse` flag succeeds, but the logical-successor walk of length 4 from
vertex 0 is `[0,2,0,2]`: it never visits vertex 1 and re-visits vertex 0
after two steps, so the structure does not encode the cycle `[0,1,2]` up
to rotation or reflection. -/
theorem C1_test : (applyE [0, 1, 2] staleFlagTree).map
      (fun t => TwoLevelTree.walkIdx t 4 0) = .ok [0, 2, 0, 2] ∧
    [0, 2, 0, 2] ≠ [0, 1, 2, 0] ∧ [0, 2, 0, 2] ≠ [0, 2, 1, 0] := by
  refine ⟨?_, ?_, ?_⟩
  · rfl
  · decide
  · decide

/-- C1 amended: on a freshly-created tree. -/
theorem C1_amended_test {S : Type} [Add S] [Zero S]
    (dist : Nat → Nat → S) (n m : Nat) (order : List Nat)
    (hm : 0 < m) (hperm : order.Perm (List.range n)) :
    ∃ t', applyE order (TwoLevelTree.new dist n m) = .ok t' ∧
      ∀ start, start < n → ∃ k, k < n ∧ order.getD k 0 = start ∧
        TwoLevelTree.walkIdx t' (n + 1) start = (order.drop k ++ order.take k) ++ [start] ∧
        (order.drop k ++ order.take k).Perm (List.range n) := by
  obtain ⟨t', hok, _, _, _, hv, hp, _⟩ := applyE_new_final dist n m order hm hperm
  refine ⟨t', hok, ?_⟩
  intro start hstart
  obtain ⟨k, hk, hks⟩ := perm_surj hperm start hstart
  refine ⟨k, hk, hks, ?_, ?_⟩
  · rw [← hks]
    exact walk_rotation t' order n (perm_length hperm) (by omega)
      (succAt_of_final hv hp) k hk
  · have h6 : List.Perm (order.drop k ++ order.take k) (order.take k ++ order.drop k) :=
      List.perm_append_comm
    have h7 : order.take k ++ order.drop k = order := List.take_append_drop k order
    exact (h7 ▸ h6).trans hperm


theorem length_reverseBlock (l : List Nat) (a b : Nat) (hab : a ≤ b)
    (hb : b ≤ l.length) : (reverseBlock l a b).length = l.length := by
  simp [reverseBlock]
  omega

theorem reverseBlock_getD (l : List Nat) (a b i : Nat) (hab : a ≤ b)
    (hb : b ≤ l.length) (hi : i < l.length) :
    (reverseBlock l a b).getD i 0 =
      l.getD (if a ≤ i ∧ i < b then a + b - 1 - i else i) 0 := by
  rw [reverseBlock]
  by_cases h1 : i < a
  · rw [List.getD_append _ _ _ _ (by simp; omega)]
    rw [List.getD_append _ _ _ _ (by simp; omega)]
    rw [if_neg (by omega)]
    rw [List.getD_eq_getElem _ 0 (by simp; omega), List.getD_eq_getElem _ 0 (by omega)]
    exact List.getElem_take _
  · by_cases h2 : i < b
    · rw [List.getD_append _ _ _ _ (by simp; omega)]
      rw [List.getD_append_right _ _ _ _ (by simp; omega)]
      rw [if_pos (by omega)]
      have hlt : i - (l.take a).length < ((l.drop a).take (b - a)).reverse.length := by
        simp; omega
      rw [List.getD_eq_getElem _ 0 hlt, List.getD_eq_getElem _ 0 (by omega)]
      rw [List.getElem_reverse]
      rw [List.getElem_take, List.getElem_drop]
      congr 1
      simp at hlt
      simp
      omega
    · rw [List.getD_append_right _ _ _ _ (by simp; omega)]
      rw [if_neg (by omega)]
      rw [List.getD_eq_getElem _ 0 (by simp; omega), List.getD_eq_getElem _ 0 (by omega)]
      rw [List.getElem_drop]
      congr 1
      simp
      omega

section C9

variable {S : Type} [Add S] [Zero S] {dist : Nat → Nat → S} {order : List Nat}
variable {n m j : Nat} {t : TwoLevelTree S}

theorem parentReverse_final_eq
    (hm : 0 < m) (hperm : order.Perm (List.range n))
    (hv : ∀ i, i < n → t.vertices[order.getD i 0]? = some (finalV order n m i))
    (hp : ∀ j2, j2 < n / m + 1 → t.parents[j2]? = some (donePar order n m (n / m + 1) j2))
    (hj : j * m < n) :
    TwoLevelTree.parentReverse t j =
      { t with
        vertices := listModify (listModify (listModify (listModify t.vertices
          (order.getD ((j * m + n - 1) % n) 0)
            (fun v => { v with next := some (order.getD (segE m n (j + 1) - 1) 0) }))
          (order.getD (segE m n (j + 1) - 1) 0)
            (fun v => { v with next := some (order.getD ((j * m + n - 1) % n) 0) }))
          (order.getD (j * m) 0)
            (fun v => { v with prev := some (order.getD (segE m n (j + 1) % n) 0) }))
          (order.getD (segE m n (j + 1) % n) 0)
            (fun v => { v with prev := some (order.getD (j * m) 0) })
        parents := listModify t.parents j (fun q => { q with reverse := !q.reverse }) } := by
  have hP : 0 < n / m + 1 := Nat.succ_pos _
  have hjP : j < n / m + 1 := by
    have h2 : j * m ≤ n := le_of_lt hj
    have h3 : j ≤ n / m := (Nat.le_div_iff_mul_le hm).2 h2
    omega
  have hpj := hp j hjP
  have hpp := hp ((j + (n / m + 1) - 1) % (n / m + 1)) (Nat.mod_lt _ hP)
  have hnp := hp ((j + 1) % (n / m + 1)) (Nat.mod_lt _ hP)
  have hbpos : 0 < segE m n (j + 1) := by
    have h1 : 0 < (j + 1) * m := by positivity
    simp [segE]
    omega
  have hb1 : segE m n (j + 1) - 1 + 1 = segE m n (j + 1) := by omega
  have hbl : segE m n (j + 1) - 1 < n := by
    have h2 : segE m n (j + 1) ≤ n := by simp [segE]
    omega
  have hwl : (j * m + n - 1) % n < n := Nat.mod_lt _ (by omega)
  have hva := hv (j * m) hj
  have hvb := hv (segE m n (j + 1) - 1) hbl
  rw [TwoLevelTree.parentReverse, hpj]
  simp only [donePar, if_pos hj]
  rw [hva, hvb]
  simp only [finalV, hb1, Bool.false_eq_true, if_false]
  rw [hpp]
  simp only [donePar, TwoLevelTree.modV, TwoLevelTree.modP, Bool.false_eq_true, if_false]
  rw [hnp]
  simp only [donePar, TwoLevelTree.modV, TwoLevelTree.modP, Bool.not_false]



theorem pw_val (hm : 0 < m) (hmn : m < n) (hj : j * m < n) :
    (j * m + n - 1) % n = if j = 0 then n - 1 else j * m - 1 := by
  by_cases h0 : j = 0
  · subst h0
    rw [if_pos rfl]
    rw [show 0 * m + n - 1 = n - 1 by omega]
    exact Nat.mod_eq_of_lt (by omega)
  · have h1 : 0 < j * m := Nat.mul_pos (by omega) hm
    rw [if_neg h0]
    rw [show j * m + n - 1 = (j * m - 1) + n by omega, Nat.add_mod_right]
    exact Nat.mod_eq_of_lt (by omega)

theorem segE_le (m n j2 : Nat) : segE m n j2 ≤ n := by
  simp [segE]

theorem segE_succ_gt (hm : 0 < m) (hj : j * m < n) : j * m < segE m n (j + 1) := by
  have h1 : (j + 1) * m = j * m + m := by ring
  simp [segE]
  omega

theorem pu_val (hm : 0 < m) (hmn : m < n) (hj : j * m < n) :
    segE m n (j + 1) % n = if segE m n (j + 1) = n then 0 else segE m n (j + 1) := by
  by_cases hbn : segE m n (j + 1) = n
  · rw [if_pos hbn, hbn, Nat.mod_self]
  · rw [if_neg hbn]
    exact Nat.mod_eq_of_lt (by have := segE_le m n (j + 1); omega)

theorem seg1_val (hm : 0 < m) (hmn : m < n) : segE m n 1 = m := by
  simp [segE]
  omega

/-- The position before the block and the position after the block both lie
outside the block. -/
theorem pw_not_in_block (hm : 0 < m) (hmn : m < n) (hj : j * m < n) :
    ¬(j * m ≤ (j * m + n - 1) % n ∧ (j * m + n - 1) % n < segE m n (j + 1)) := by
  rw [pw_val hm hmn hj]
  by_cases h0 : j = 0
  · subst h0
    rw [if_pos rfl]
    have h2 : segE m n (0 + 1) = m := seg1_val hm hmn
    omega
  · have h1 : 0 < j * m := Nat.mul_pos (by omega) hm
    rw [if_neg h0]
    omega

theorem pu_not_in_block (hm : 0 < m) (hmn : m < n) (hj : j * m < n) :
    ¬(j * m ≤ segE m n (j + 1) % n ∧ segE m n (j + 1) % n < segE m n (j + 1)) := by
  rw [pu_val hm hmn hj]
  by_cases hbn : segE m n (j + 1) = n
  · rw [if_pos hbn]
    intro h
    have h0 : j = 0 := by
      by_cases hj0 : j = 0
      · exact hj0
      · exfalso
        have h1 : 0 < j * m := Nat.mul_pos (by omega) hm
        omega
    subst h0
    have h2 : segE m n (0 + 1) = m := seg1_val hm hmn
    omega
  · rw [if_neg hbn]
    omega

theorem V4_getElem
    (hm : 0 < m) (hmn : m < n) (hperm : order.Perm (List.range n))
    (hv : ∀ i, i < n → t.vertices[order.getD i 0]? = some (finalV order n m i))
    (hj : j * m < n) (q : Nat) (hq : q < n) :
    (listModify (listModify (listModify (listModify t.vertices
      (order.getD ((j * m + n - 1) % n) 0)
        (fun v => { v with next := some (order.getD (segE m n (j + 1) - 1) 0) }))
      (order.getD (segE m n (j + 1) - 1) 0)
        (fun v => { v with next := some (order.getD ((j * m + n - 1) % n) 0) }))
      (order.getD (j * m) 0)
        (fun v => { v with prev := some (order.getD (segE m n (j + 1) % n) 0) }))
      (order.getD (segE m n (j + 1) % n) 0)
        (fun v => { v with prev := some (order.getD (j * m) 0) }))[order.getD q 0]?
    = some (finalVrev order n m j q) := by
  have hbgt := segE_succ_gt hm hj
  have hble := segE_le m n (j + 1)
  have hn : 0 < n := by omega
  have hpw : (j * m + n - 1) % n < n := Nat.mod_lt _ hn
  have hpu : segE m n (j + 1) % n < n := Nat.mod_lt _ hn
  have hb1 : segE m n (j + 1) - 1 < n := by omega
  have Fpw := pw_not_in_block hm hmn hj
  have Fpu := pu_not_in_block hm hmn hj
  have hpw_ne_a : (j * m + n - 1) % n ≠ j * m := fun h => Fpw (by omega)
  have hpw_ne_b1 : (j * m + n - 1) % n ≠ segE m n (j + 1) - 1 := fun h => Fpw (by omega)
  have hpu_ne_a : segE m n (j + 1) % n ≠ j * m := fun h => Fpu (by omega)
  have hpu_ne_b1 : segE m n (j + 1) % n ≠ segE m n (j + 1) - 1 := fun h => Fpu (by omega)
  have c1 : (order.getD q 0 = order.getD ((j * m + n - 1) % n) 0) ↔ q = (j * m + n - 1) % n :=
    perm_getD_inj_iff hperm hq hpw
  have c2 : (order.getD q 0 = order.getD (segE m n (j + 1) - 1) 0) ↔ q = segE m n (j + 1) - 1 :=
    perm_getD_inj_iff hperm hq hb1
  have c3 : (order.getD q 0 = order.getD (j * m) 0) ↔ q = j * m :=
    perm_getD_inj_iff hperm hq hj
  have c4 : (order.getD q 0 = order.getD (segE m n (j + 1) % n) 0) ↔ q = segE m n (j + 1) % n :=
    perm_getD_inj_iff hperm hq hpu
  rw [getElem?_listModify]
  by_cases h4 : q = segE m n (j + 1) % n
  · rw [if_pos (c4.2 h4)]
    rw [getElem?_listModify, if_neg (fun hc => absurd (c3.1 hc) (by omega))]
    rw [getElem?_listModify, if_neg (fun hc => absurd (c2.1 hc) (by omega))]
    rw [getElem?_listModify]
    by_cases h1 : q = (j * m + n - 1) % n
    · rw [if_pos (c1.2 h1)]
      rw [hv q hq]
      simp only [Option.map_some, finalVrev, finalV]
      split_ifs <;> first | rfl | (exfalso; omega)
    · rw [if_neg (fun hc => h1 (c1.1 hc))]
      rw [hv q hq]
      simp only [Option.map_some, finalVrev, finalV]
      split_ifs <;> first | rfl | (exfalso; omega)
  · rw [if_neg (fun hc => h4 (c4.1 hc))]
    rw [getElem?_listModify]
    by_cases h3 : q = j * m
    · rw [if_pos (c3.2 h3)]
      rw [getElem?_listModify]
      by_cases h2 : q = segE m n (j + 1) - 1
      · rw [if_pos (c2.2 h2)]
        rw [getElem?_listModify, if_neg (fun hc => absurd (c1.1 hc) (by omega))]
        rw [hv q hq]
        simp only [Option.map_some, finalVrev, finalV]
        split_ifs <;> first | rfl | (exfalso; omega)
      · rw [if_neg (fun hc => h2 (c2.1 hc))]
        rw [getElem?_listModify, if_neg (fun hc => absurd (c1.1 hc) (by omega))]
        rw [hv q hq]
        simp only [Option.map_some, finalVrev, finalV]
        split_ifs <;> first | rfl | (exfalso; omega)
    · rw [if_neg (fun hc => h3 (c3.1 hc))]
      rw [getElem?_listModify]
      by_cases h2 : q = segE m n (j + 1) - 1
      · rw [if_pos (c2.2 h2)]
        rw [getElem?_listModify, if_neg (fun hc => absurd (c1.1 hc) (by omega))]
        rw [hv q hq]
        simp only [Option.map_some, finalVrev, finalV]
        split_ifs <;> first | rfl | (exfalso; omega)
      · rw [if_neg (fun hc => h2 (c2.1 hc))]
        rw [getElem?_listModify]
        by_cases h1 : q = (j * m + n - 1) % n
        · rw [if_pos (c1.2 h1)]
          rw [hv q hq]
          simp only [Option.map_some, finalVrev, finalV]
          split_ifs <;> first | rfl | (exfalso; omega)
        · rw [if_neg (fun hc => h1 (c1.1 hc))]
          rw [hv q hq]
          simp only [Option.map_some, finalVrev, finalV]
          split_ifs <;> first | rfl | (exfalso; omega)

theorem div_block_iff {q : Nat} (hm : 0 < m) (hq : q < n) (hj : j * m < n) :
    q / m = j ↔ (j * m ≤ q ∧ q < segE m n (j + 1)) := by
  have hmul : (j + 1) * m = j * m + m := by ring
  constructor
  · intro h
    have h1 : j * m ≤ q := by
      have h2 : j ≤ q / m := le_of_eq h.symm
      exact (Nat.le_div_iff_mul_le hm).1 h2
    have h3 : q / m < j + 1 := by omega
    have h4 : q < (j + 1) * m := (Nat.div_lt_iff_lt_mul hm).1 h3
    refine ⟨h1, ?_⟩
    simp [segE]
    omega
  · intro h
    have h5 : q < segE m n (j + 1) := h.2
    have h6 : q < j * m + m := by
      have h7 : segE m n (j + 1) ≤ (j + 1) * m := by simp [segE]
      omega
    exact div_eq_seg hm h.1 h6

theorem PM_getElem
    (hp : ∀ j2, j2 < n / m + 1 → t.parents[j2]? = some (donePar order n m (n / m + 1) j2))
    {p2 : Nat} (hp2 : p2 < n / m + 1) :
    (listModify t.parents j (fun q => { q with reverse := !q.reverse }))[p2]? =
      some (if p2 = j then { donePar order n m (n / m + 1) j with reverse := true }
        else donePar order n m (n / m + 1) p2) := by
  rw [getElem?_listModify]
  by_cases h : p2 = j
  · rw [if_pos h, if_pos h, h, hp j (h ▸ hp2)]
    simp [donePar]
  · rw [if_neg h, if_neg h, hp p2 hp2]


theorem rec_vertices (t : TwoLevelTree S) (V : List TltVertex) (P : List ParentVertex) :
    ({ t with vertices := V, parents := P } : TwoLevelTree S).vertices = V := rfl

theorem rec_parents (t : TwoLevelTree S) (V : List TltVertex) (P : List ParentVertex) :
    ({ t with vertices := V, parents := P } : TwoLevelTree S).parents = P := rfl

theorem succAt_rev_val
    (hm : 0 < m) (hmn : m < n) (hperm : order.Perm (List.range n))
    (hv : ∀ i, i < n → t.vertices[order.getD i 0]? = some (finalV order n m i))
    (hp : ∀ j2, j2 < n / m + 1 → t.parents[j2]? = some (donePar order n m (n / m + 1) j2))
    (hj : j * m < n) (q : Nat) (hq : q < n) :
    TwoLevelTree.succAt (TwoLevelTree.parentReverse t j) (order.getD q 0) =
      some (order.getD (succPos n m j q) 0) := by
  have hbgt := segE_succ_gt hm hj
  have hble := segE_le m n (j + 1)
  have hn : 0 < n := by omega
  have hb1 : segE m n (j + 1) - 1 < n := by omega
  have hpu : segE m n (j + 1) % n < n := Nat.mod_lt _ hn
  have hpw : (j * m + n - 1) % n < n := Nat.mod_lt _ hn
  have hjP : j < n / m + 1 := by
    have h3 : j ≤ n / m := (Nat.le_div_iff_mul_le hm).2 (le_of_lt hj)
    omega
  have Fpu := pu_not_in_block hm hmn hj
  rw [parentReverse_final_eq hm hperm hv hp hj]
  simp only [TwoLevelTree.succAt, rec_vertices, rec_parents]
  rw [V4_getElem hm hmn hperm hv hj q hq]
  by_cases hblk : j * m ≤ q ∧ q < segE m n (j + 1)
  · have hqj : q / m = j := (div_block_iff hm hq hj).2 hblk
    have hPMj : (listModify t.parents j (fun p0 => { p0 with reverse := !p0.reverse }))[j]? =
        some { donePar order n m (n / m + 1) j with reverse := true } := by
      rw [PM_getElem hp hjP, if_pos rfl]
    by_cases hqa : q = j * m
    · rw [succPos, if_pos hblk, if_pos hqa]
      simp only [Option.some_bind, TwoLevelTree.nextV, finalVrev, finalV]
      rw [hqj, hPMj]
      simp [if_pos hqa, V4_getElem hm hmn hperm hv hj (segE m n (j + 1) % n) hpu,
        finalVrev, finalV, -List.getD_eq_getElem?_getD]
    · rw [succPos, if_pos hblk, if_neg hqa]
      have hqpu : ¬(q = segE m n (j + 1) % n) := fun h => Fpu (h ▸ hblk)
      have hq1 : (q + n - 1) % n < n := Nat.mod_lt _ hn
      simp only [Option.some_bind, TwoLevelTree.nextV, finalVrev, finalV]
      rw [hqj, hPMj]
      simp [if_neg hqa, if_neg hqpu, V4_getElem hm hmn hperm hv hj ((q + n - 1) % n) hq1,
        finalVrev, finalV, -List.getD_eq_getElem?_getD]
  · have hqj2 : ¬(q / m = j) := fun h => hblk ((div_block_iff hm hq hj).1 h)
    have hdivP : q / m < n / m + 1 := Nat.lt_succ_of_le (Nat.div_le_div_right (le_of_lt hq))
    have hPMq : (listModify t.parents j (fun p0 => { p0 with reverse := !p0.reverse }))[q / m]? =
        some (donePar order n m (n / m + 1) (q / m)) := by
      rw [PM_getElem hp hdivP, if_neg hqj2]
    have hqb1 : ¬(q = segE m n (j + 1) - 1) := fun h => hblk (by omega)
    rw [succPos, if_neg hblk]
    simp only [Option.some_bind, TwoLevelTree.nextV, finalVrev, finalV]
    rw [hPMq]
    by_cases hqpw : q = (j * m + n - 1) % n
    · simp [if_pos hqpw, if_neg hqb1, V4_getElem hm hmn hperm hv hj (segE m n (j + 1) - 1) hb1,
        finalVrev, finalV, donePar, -List.getD_eq_getElem?_getD]
    · have hq2 : (q + 1) % n < n := Nat.mod_lt _ hn
      simp [if_neg hqpw, if_neg hqb1, V4_getElem hm hmn hperm hv hj ((q + 1) % n) hq2,
        finalVrev, finalV, donePar, -List.getD_eq_getElem?_getD]

theorem succPos_sigma (hm : 0 < m) (hmn : m < n) (hj : j * m < n) (i : Nat) (hi : i < n) :
    succPos n m j
        (if j * m ≤ i ∧ i < segE m n (j + 1) then j * m + segE m n (j + 1) - 1 - i else i) =
      if j * m ≤ (i + 1) % n ∧ (i + 1) % n < segE m n (j + 1) then
        j * m + segE m n (j + 1) - 1 - ((i + 1) % n)
      else (i + 1) % n := by
  have hbgt := segE_succ_gt hm hj
  have hble := segE_le m n (j + 1)
  have hn : 0 < n := by omega
  have hM1 := mod_succ_lt hi
  have hwv := pw_val hm hmn hj
  have hpv := pu_val hm hmn hj
  rw [succPos]
  by_cases h0 : j = 0
  · subst h0
    have hsm : segE m n (0 + 1) = m := seg1_val hm hmn
    have hwv2 : (0 * m + n - 1) % n = n - 1 := by
      rw [hwv]
      simp
    have hpv2 : segE m n (0 + 1) % n = segE m n (0 + 1) := by
      rw [hpv, if_neg (by omega)]
    by_cases hblk : 0 * m ≤ i ∧ i < segE m n (0 + 1)
    · rw [if_pos hblk]
      have hblk2 : 0 * m ≤ 0 * m + segE m n (0 + 1) - 1 - i ∧
          0 * m + segE m n (0 + 1) - 1 - i < segE m n (0 + 1) := by omega
      rw [if_pos hblk2]
      by_cases hqa : 0 * m + segE m n (0 + 1) - 1 - i = 0 * m
      · rw [if_pos hqa, hpv2, hM1]
        split_ifs <;> omega
      · rw [if_neg hqa]
        have hq2 : 0 * m + segE m n (0 + 1) - 1 - i < n := by omega
        rw [mod_pred_lt hq2, hM1]
        split_ifs <;> omega
    · rw [if_neg hblk]
      by_cases hqpw : i = (0 * m + n - 1) % n
      · rw [if_pos hqpw, hM1]
        split_ifs <;> omega
      · rw [if_neg hqpw, hM1]
        split_ifs <;> omega
  · have ha1 : 0 < j * m := Nat.mul_pos (by omega) hm
    have hwv2 : (j * m + n - 1) % n = j * m - 1 := by rw [hwv, if_neg h0]
    by_cases hD : segE m n (j + 1) = n
    · have hpv2 : segE m n (j + 1) % n = 0 := by rw [hpv, if_pos hD]
      by_cases hblk : j * m ≤ i ∧ i < segE m n (j + 1)
      · rw [if_pos hblk]
        have hblk2 : j * m ≤ j * m + segE m n (j + 1) - 1 - i ∧
            j * m + segE m n (j + 1) - 1 - i < segE m n (j + 1) := by omega
        rw [if_pos hblk2]
        by_cases hqa : j * m + segE m n (j + 1) - 1 - i = j * m
        · rw [if_pos hqa, hpv2, hM1]
          split_ifs <;> omega
        · rw [if_neg hqa]
          have hq2 : j * m + segE m n (j + 1) - 1 - i < n := by omega
          rw [mod_pred_lt hq2, hM1]
          split_ifs <;> omega
      · rw [if_neg hblk]
        by_cases hqpw : i = (j * m + n - 1) % n
        · rw [if_pos hqpw, hM1]
          split_ifs <;> omega
        · rw [if_neg hqpw, hM1]
          split_ifs <;> omega
    · have hpv2 : segE m n (j + 1) % n = segE m n (j + 1) := by rw [hpv, if_neg hD]
      by_cases hblk : j * m ≤ i ∧ i < segE m n (j + 1)
      · rw [if_pos hblk]
        have hblk2 : j * m ≤ j * m + segE m n (j + 1) - 1 - i ∧
            j * m + segE m n (j + 1) - 1 - i < segE m n (j + 1) := by omega
        rw [if_pos hblk2]
        by_cases hqa : j * m + segE m n (j + 1) - 1 - i = j * m
        · rw [if_pos hqa, hpv2, hM1]
          split_ifs <;> omega
        · rw [if_neg hqa]
          have hq2 : j * m + segE m n (j + 1) - 1 - i < n := by omega
          rw [mod_pred_lt hq2, hM1]
          split_ifs <;> omega
      · rw [if_neg hblk]
        by_cases hqpw : i = (j * m + n - 1) % n
        · rw [if_pos hqpw, hM1]
          split_ifs <;> omega
        · rw [if_neg hqpw, hM1]
          split_ifs <;> omega

theorem succAt_reversed
    (hm : 0 < m) (hmn : m < n) (hperm : order.Perm (List.range n))
    (hv : ∀ i, i < n → t.vertices[order.getD i 0]? = some (finalV order n m i))
    (hp : ∀ j2, j2 < n / m + 1 → t.parents[j2]? = some (donePar order n m (n / m + 1) j2))
    (hj : j * m < n) (i : Nat) (hi : i < n) :
    TwoLevelTree.succAt (TwoLevelTree.parentReverse t j)
      ((reverseBlock order (j * m) (segE m n (j + 1))).getD i 0) =
      some ((reverseBlock order (j * m) (segE m n (j + 1))).getD ((i + 1) % n) 0) := by
  have hlen := perm_length hperm
  have hbgt := segE_succ_gt hm hj
  have hble := segE_le m n (j + 1)
  have hn : 0 < n := by omega
  have hi2 : (i + 1) % n < n := Nat.mod_lt _ hn
  rw [reverseBlock_getD order _ _ i (le_of_lt hbgt) (by omega) (by omega)]
  rw [reverseBlock_getD order _ _ ((i + 1) % n) (le_of_lt hbgt) (by omega) (by omega)]
  have hs : (if j * m ≤ i ∧ i < segE m n (j + 1) then
      j * m + segE m n (j + 1) - 1 - i else i) < n := by
    split_ifs <;> omega
  rw [succAt_rev_val hm hmn hperm hv hp hj _ hs]
  rw [succPos_sigma hm hmn hj i hi]

theorem parentReverse_rev_eq
    (hm : 0 < m) (hmn : m < n) (hperm : order.Perm (List.range n))
    (hv : ∀ i, i < n → t.vertices[order.getD i 0]? = some (finalV order n m i))
    (hp : ∀ j2, j2 < n / m + 1 → t.parents[j2]? = some (donePar order n m (n / m + 1) j2))
    (hj : j * m < n) :
    TwoLevelTree.parentReverse (TwoLevelTree.parentReverse t j) j =
      { t with
        vertices := (listModify (listModify (listModify (listModify (listModify (listModify (listModify (listModify t.vertices
      (order.getD ((j * m + n - 1) % n) 0)
        (fun v => { v with next := some (order.getD (segE m n (j + 1) - 1) 0) }))
      (order.getD (segE m n (j + 1) - 1) 0)
        (fun v => { v with next := some (order.getD ((j * m + n - 1) % n) 0) }))
      (order.getD (j * m) 0)
        (fun v => { v with prev := some (order.getD (segE m n (j + 1) % n) 0) }))
      (order.getD (segE m n (j + 1) % n) 0)
        (fun v => { v with prev := some (order.getD (j * m) 0) }))
      (order.getD ((j * m + n - 1) % n) 0)
        (fun v => { v with next := some (order.getD (j * m) 0) }))
      (order.getD (j * m) 0)
        (fun v => { v with prev := some (order.getD ((j * m + n - 1) % n) 0) }))
      (order.getD (segE m n (j + 1) - 1) 0)
        (fun v => { v with next := some (order.getD (segE m n (j + 1) % n) 0) }))
      (order.getD (segE m n (j + 1) % n) 0)
        (fun v => { v with prev := some (order.getD (segE m n (j + 1) - 1) 0) }))
        parents := listModify (listModify t.parents j (fun q => { q with reverse := !q.reverse }))
          j (fun q => { q with reverse := !q.reverse }) } := by
  have hP : 0 < n / m + 1 := Nat.succ_pos _
  have hjP : j < n / m + 1 := by
    have h3 : j ≤ n / m := (Nat.le_div_iff_mul_le hm).2 (le_of_lt hj)
    omega
  have hbgt := segE_succ_gt hm hj
  have hble := segE_le m n (j + 1)
  have hn : 0 < n := by omega
  have hb1 : segE m n (j + 1) - 1 < n := by omega
  have hpuh : segE m n (j + 1) % n < n := Nat.mod_lt _ hn
  have hpwh : (j * m + n - 1) % n < n := Nat.mod_lt _ hn
  have hP2 : 1 ≤ n / m := (Nat.le_div_iff_mul_le hm).2 (by omega)
  have Fpw := pw_not_in_block hm hmn hj
  have Fpu := pu_not_in_block hm hmn hj
  have hppP : (j + (n / m + 1) - 1) % (n / m + 1) < n / m + 1 := Nat.mod_lt _ hP
  have hnpP : (j + 1) % (n / m + 1) < n / m + 1 := Nat.mod_lt _ hP
  have hppne : (j + (n / m + 1) - 1) % (n / m + 1) ≠ j := by
    by_cases h0 : j = 0
    · subst h0
      rw [show 0 + (n / m + 1) - 1 = n / m by omega, Nat.mod_eq_of_lt (by omega)]
      omega
    · rw [show j + (n / m + 1) - 1 = (j - 1) + (n / m + 1) by omega, Nat.add_mod_right,
        Nat.mod_eq_of_lt (by omega)]
      omega
  have hnpne : (j + 1) % (n / m + 1) ≠ j := by
    by_cases hE : j + 1 = n / m + 1
    · rw [hE, Nat.mod_self]
      omega
    · rw [Nat.mod_eq_of_lt (by omega)]
      omega
  have hPMj : (listModify t.parents j (fun p0 => { p0 with reverse := !p0.reverse }))[j]? =
      some { donePar order n m (n / m + 1) j with reverse := true } := by
    rw [PM_getElem hp hjP, if_pos rfl]
  have hPMpp : (listModify t.parents j (fun p0 => { p0 with reverse := !p0.reverse }))[
      (j + (n / m + 1) - 1) % (n / m + 1)]? =
      some (donePar order n m (n / m + 1) ((j + (n / m + 1) - 1) % (n / m + 1))) := by
    rw [PM_getElem hp hppP, if_neg hppne]
  have hPMnp : (listModify t.parents j (fun p0 => { p0 with reverse := !p0.reverse }))[
      (j + 1) % (n / m + 1)]? =
      some (donePar order n m (n / m + 1) ((j + 1) % (n / m + 1))) := by
    rw [PM_getElem hp hnpP, if_neg hnpne]
  have hne1 : ¬(segE m n (j + 1) - 1 = (j * m + n - 1) % n) := fun h => Fpw (by omega)
  rw [parentReverse_final_eq hm hperm hv hp hj]
  rw [TwoLevelTree.parentReverse, rec_parents, hPMj]
  simp only [donePar, if_pos hj, rec_vertices]
  rw [V4_getElem hm hmn hperm hv hj (j * m) hj]
  rw [V4_getElem hm hmn hperm hv hj (segE m n (j + 1) - 1) hb1]
  simp only [finalVrev, finalV, if_neg hne1, eq_self_iff_true, if_true]
  rw [hPMpp]
  simp only [donePar, TwoLevelTree.modV, rec_vertices, rec_parents]
  rw [hPMnp]
  simp only [donePar, TwoLevelTree.modV, TwoLevelTree.modP, rec_vertices, rec_parents]

theorem epw1 (hm : 0 < m) (hmn : m < n) (hj : j * m < n) :
    ((j * m + n - 1) % n + 1) % n = j * m := by
  rw [pw_val hm hmn hj]
  by_cases h0 : j = 0
  · rw [if_pos h0, show n - 1 + 1 = n by omega, Nat.mod_self, h0, Nat.zero_mul]
  · have ha1 : 0 < j * m := Nat.mul_pos (by omega) hm
    rw [if_neg h0, show j * m - 1 + 1 = j * m by omega]
    exact Nat.mod_eq_of_lt hj

theorem epu1 (hm : 0 < m) (hmn : m < n) (hj : j * m < n) :
    (segE m n (j + 1) % n + n - 1) % n = segE m n (j + 1) - 1 := by
  have hbgt := segE_succ_gt hm hj
  have hble := segE_le m n (j + 1)
  have hn : 0 < n := by omega
  rw [pu_val hm hmn hj]
  by_cases hD : segE m n (j + 1) = n
  · rw [if_pos hD, show 0 + n - 1 = n - 1 by omega, Nat.mod_eq_of_lt (by omega), hD]
  · rw [if_neg hD,
      show segE m n (j + 1) + n - 1 = (segE m n (j + 1) - 1) + n by omega,
      Nat.add_mod_right, Nat.mod_eq_of_lt (by omega)]

theorem eb11 (hm : 0 < m) (hj : j * m < n) :
    (segE m n (j + 1) - 1 + 1) % n = segE m n (j + 1) % n := by
  have hbgt := segE_succ_gt hm hj
  rw [show segE m n (j + 1) - 1 + 1 = segE m n (j + 1) by omega]

theorem V8_getElem
    (hm : 0 < m) (hmn : m < n) (hperm : order.Perm (List.range n))
    (hv : ∀ i, i < n → t.vertices[order.getD i 0]? = some (finalV order n m i))
    (hj : j * m < n) (q : Nat) (hq : q < n) :
    (listModify (listModify (listModify (listModify (listModify (listModify (listModify (listModify t.vertices
      (order.getD ((j * m + n - 1) % n) 0)
        (fun v => { v with next := some (order.getD (segE m n (j + 1) - 1) 0) }))
      (order.getD (segE m n (j + 1) - 1) 0)
        (fun v => { v with next := some (order.getD ((j * m + n - 1) % n) 0) }))
      (order.getD (j * m) 0)
        (fun v => { v with prev := some (order.getD (segE m n (j + 1) % n) 0) }))
      (order.getD (segE m n (j + 1) % n) 0)
        (fun v => { v with prev := some (order.getD (j * m) 0) }))
      (order.getD ((j * m + n - 1) % n) 0)
        (fun v => { v with next := some (order.getD (j * m) 0) }))
      (order.getD (j * m) 0)
        (fun v => { v with prev := some (order.getD ((j * m + n - 1) % n) 0) }))
      (order.getD (segE m n (j + 1) - 1) 0)
        (fun v => { v with next := some (order.getD (segE m n (j + 1) % n) 0) }))
      (order.getD (segE m n (j + 1) % n) 0)
        (fun v => { v with prev := some (order.getD (segE m n (j + 1) - 1) 0) }))[order.getD q 0]?
    = some (finalV order n m q) := by
  have hbgt := segE_succ_gt hm hj
  have hble := segE_le m n (j + 1)
  have hn : 0 < n := by omega
  have hpw : (j * m + n - 1) % n < n := Nat.mod_lt _ hn
  have hpu : segE m n (j + 1) % n < n := Nat.mod_lt _ hn
  have hb1 : segE m n (j + 1) - 1 < n := by omega
  have Fpw := pw_not_in_block hm hmn hj
  have Fpu := pu_not_in_block hm hmn hj
  have hpw_ne_a : (j * m + n - 1) % n ≠ j * m := fun h => Fpw (by omega)
  have hpw_ne_b1 : (j * m + n - 1) % n ≠ segE m n (j + 1) - 1 := fun h => Fpw (by omega)
  have hpu_ne_a : segE m n (j + 1) % n ≠ j * m := fun h => Fpu (by omega)
  have hpu_ne_b1 : segE m n (j + 1) % n ≠ segE m n (j + 1) - 1 := fun h => Fpu (by omega)
  have c1 : (order.getD q 0 = order.getD ((j * m + n - 1) % n) 0) ↔ q = (j * m + n - 1) % n :=
    perm_getD_inj_iff hperm hq hpw
  have c2 : (order.getD q 0 = order.getD (segE m n (j + 1) - 1) 0) ↔ q = segE m n (j + 1) - 1 :=
    perm_getD_inj_iff hperm hq hb1
  have c3 : (order.getD q 0 = order.getD (j * m) 0) ↔ q = j * m :=
    perm_getD_inj_iff hperm hq hj
  have c4 : (order.getD q 0 = order.getD (segE m n (j + 1) % n) 0) ↔ q = segE m n (j + 1) % n :=
    perm_getD_inj_iff hperm hq hpu
  have he1 := epw1 hm hmn hj
  have he2 := epu1 hm hmn hj
  have he3 := eb11 hm hj
  rw [getElem?_listModify]
  by_cases h4 : q = segE m n (j + 1) % n
  · rw [if_pos (c4.2 h4)]
    rw [getElem?_listModify, if_neg (fun hc => absurd (c2.1 hc) (by omega))]
    rw [getElem?_listModify, if_neg (fun hc => absurd (c3.1 hc) (by omega))]
    rw [getElem?_listModify]
    by_cases h1 : q = (j * m + n - 1) % n
    · rw [if_pos (c1.2 h1)]
      rw [V4_getElem hm hmn hperm hv hj q hq]
      have ea : (q + 1) % n = j * m := by rw [h1]; exact he1
      have eb : (q + n - 1) % n = segE m n (j + 1) - 1 := by rw [h4]; exact he2
      simp [finalVrev, finalV, ea, eb, -List.getD_eq_getElem?_getD]
    · rw [if_neg (fun hc => h1 (c1.1 hc))]
      rw [V4_getElem hm hmn hperm hv hj q hq]
      have eb : (q + n - 1) % n = segE m n (j + 1) - 1 := by rw [h4]; exact he2
      have n1 : ¬(q = (j * m + n - 1) % n) := h1
      have n2 : ¬(q = segE m n (j + 1) - 1) := by omega
      simp [finalVrev, finalV, eb, n1, n2, -List.getD_eq_getElem?_getD]
  · rw [if_neg (fun hc => h4 (c4.1 hc))]
    rw [getElem?_listModify]
    by_cases h2 : q = segE m n (j + 1) - 1
    · rw [if_pos (c2.2 h2)]
      rw [getElem?_listModify]
      by_cases h3 : q = j * m
      · rw [if_pos (c3.2 h3)]
        rw [getElem?_listModify, if_neg (fun hc => absurd (c1.1 hc) (by omega))]
        rw [V4_getElem hm hmn hperm hv hj q hq]
        have ea : (q + 1) % n = segE m n (j + 1) % n := by rw [h2]; exact he3
        have eb : (q + n - 1) % n = (j * m + n - 1) % n := by rw [h3]
        simp [finalVrev, finalV, ea, eb, -List.getD_eq_getElem?_getD]
      · rw [if_neg (fun hc => h3 (c3.1 hc))]
        rw [getElem?_listModify, if_neg (fun hc => absurd (c1.1 hc) (by omega))]
        rw [V4_getElem hm hmn hperm hv hj q hq]
        have ea : (q + 1) % n = segE m n (j + 1) % n := by rw [h2]; exact he3
        have n3 : ¬(q = j * m) := h3
        have n4 : ¬(q = segE m n (j + 1) % n) := h4
        simp [finalVrev, finalV, ea, n3, n4, -List.getD_eq_getElem?_getD]
    · rw [if_neg (fun hc => h2 (c2.1 hc))]
      rw [getElem?_listModify]
      by_cases h3 : q = j * m
      · rw [if_pos (c3.2 h3)]
        rw [getElem?_listModify, if_neg (fun hc => absurd (c1.1 hc) (by omega))]
        rw [V4_getElem hm hmn hperm hv hj q hq]
        have n1 : ¬(q = (j * m + n - 1) % n) := by omega
        have n2 : ¬(q = segE m n (j + 1) - 1) := h2
        have eb : (q + n - 1) % n = (j * m + n - 1) % n := by rw [h3]
        simp [finalVrev, finalV, n1, n2, eb, -List.getD_eq_getElem?_getD]
      · rw [if_neg (fun hc => h3 (c3.1 hc))]
        rw [getElem?_listModify]
        by_cases h1 : q = (j * m + n - 1) % n
        · rw [if_pos (c1.2 h1)]
          rw [V4_getElem hm hmn hperm hv hj q hq]
          have ea : (q + 1) % n = j * m := by rw [h1]; exact he1
          have n3 : ¬(q = j * m) := h3
          have n4 : ¬(q = segE m n (j + 1) % n) := h4
          simp [finalVrev, finalV, ea, n3, n4, -List.getD_eq_getElem?_getD]
        · rw [if_neg (fun hc => h1 (c1.1 hc))]
          rw [V4_getElem hm hmn hperm hv hj q hq]
          simp [finalVrev, finalV, h1, h2, h3, h4, -List.getD_eq_getElem?_getD]

theorem PM2_getElem
    (hp : ∀ j2, j2 < n / m + 1 → t.parents[j2]? = some (donePar order n m (n / m + 1) j2))
    {p2 : Nat} (hp2 : p2 < n / m + 1) :
    (listModify (listModify t.parents j (fun q => { q with reverse := !q.reverse }))
      j (fun q => { q with reverse := !q.reverse }))[p2]? =
      some (donePar order n m (n / m + 1) p2) := by
  rw [getElem?_listModify]
  by_cases h : p2 = j
  · subst h
    rw [if_pos rfl, PM_getElem hp hp2, if_pos rfl]
    simp [donePar]
  · rw [if_neg h, PM_getElem hp hp2, if_neg h]

theorem succAt_double_rev
    (hm : 0 < m) (hmn : m < n) (hperm : order.Perm (List.range n))
    (hv : ∀ i, i < n → t.vertices[order.getD i 0]? = some (finalV order n m i))
    (hp : ∀ j2, j2 < n / m + 1 → t.parents[j2]? = some (donePar order n m (n / m + 1) j2))
    (hj : j * m < n) (i : Nat) (hi : i < n) :
    TwoLevelTree.succAt (TwoLevelTree.parentReverse (TwoLevelTree.parentReverse t j) j)
      (order.getD i 0) = some (order.getD ((i + 1) % n) 0) := by
  rw [parentReverse_rev_eq hm hmn hperm hv hp hj]
  refine succAt_of_final (m := m) ?_ ?_ i hi
  · intro i2 hi2
    rw [rec_vertices]
    exact V8_getElem hm hmn hperm hv hj i2 hi2
  · intro j2 hj2
    rw [rec_parents]
    exact PM2_getElem hp hj2

end C9

theorem reverseBlock_perm (l : List Nat) (a b : Nat) (hab : a ≤ b) (hb : b ≤ l.length) :
    (reverseBlock l a b).Perm l := by
  rw [reverseBlock, List.append_assoc]
  have h2 : List.Perm (((l.drop a).take (b - a)).reverse ++ l.drop b)
      ((l.drop a).take (b - a) ++ l.drop b) :=
    List.Perm.append_right _ (List.reverse_perm _)
  have h3 : l.take a ++ ((l.drop a).take (b - a) ++ l.drop b) = l := by
    rw [← List.append_assoc, ← List.take_add, show a + (b - a) = b by omega,
      List.take_append_drop]
  have h4 : List.Perm (l.take a ++ ((l.drop a).take (b - a) ++ l.drop b)) l := by rw [h3]
  exact (List.Perm.append_left _ h2).trans h4

theorem reverseBlock_singleton (l : List Nat) (a : Nat) :
    reverseBlock l a (a + 1) = l := by
  rw [reverseBlock]
  have h1 : ((l.drop a).take (a + 1 - a)).reverse = (l.drop a).take (a + 1 - a) := by
    rw [show a + 1 - a = 1 by omega]
    cases h : l.drop a with
    | nil => simp
    | cons x xs => simp
  rw [h1, ← List.take_add, show a + (a + 1 - a) = a + 1 by omega, List.take_append_drop]

/-- C9 counterexample: with 3 nodes in one segment of capacity 3 (the only
nonempty segment), reversing segment 0 disconnects the tour: every
successor step from vertex 0 stays at 0 instead of walking the reversed
cycle `[0,2,1]`. -/
theorem C9_test : (applyE [0, 1, 2] (TwoLevelTree.new (fun _ _ => (0 : Nat)) 3 3)).map
      (fun t => TwoLevelTree.walkIdx (TwoLevelTree.parentReverse t 0) 4 0) = .ok [0, 0, 0, 0] ∧
    [0, 0, 0, 0] ≠ [0, 2, 1, 0] := by
  constructor
  · rfl
  · decide

/-- C9 amended: on a fresh `apply` tour whose segments do not all collapse
into one (`m < n`), reversing a nonempty segment `j` yields the tour order
with exactly that block reversed; reversing again restores the original
successor relation, and a size-1 block leaves the order unchanged. -/
theorem C9_amended_test {S : Type} [Add S] [Zero S]
    (dist : Nat → Nat → S) (n m : Nat) (order : List Nat)
    (hm : 0 < m) (hmn : m < n) (hperm : order.Perm (List.range n))
    (j : Nat) (hj : j * m < n) :
    ∃ t', applyE order (TwoLevelTree.new dist n m) = .ok t' ∧
      (∀ i, i < n →
        TwoLevelTree.succAt (TwoLevelTree.parentReverse t' j)
            ((reverseBlock order (j * m) (segE m n (j + 1))).getD i 0) =
          some ((reverseBlock order (j * m) (segE m n (j + 1))).getD ((i + 1) % n) 0)) ∧
      (reverseBlock order (j * m) (segE m n (j + 1))).Perm (List.range n) ∧
      (∀ k, k < n →
        TwoLevelTree.walkIdx (TwoLevelTree.parentReverse t' j) (n + 1)
            ((reverseBlock order (j * m) (segE m n (j + 1))).getD k 0) =
          ((reverseBlock order (j * m) (segE m n (j + 1))).drop k ++
              (reverseBlock order (j * m) (segE m n (j + 1))).take k) ++
            [(reverseBlock order (j * m) (segE m n (j + 1))).getD k 0]) ∧
      (∀ i, i < n →
        TwoLevelTree.succAt (TwoLevelTree.parentReverse (TwoLevelTree.parentReverse t' j) j)
          (order.getD i 0) = some (order.getD ((i + 1) % n) 0)) ∧
      (segE m n (j + 1) = j * m + 1 → reverseBlock order (j * m) (segE m n (j + 1)) = order) := by
  obtain ⟨t', hok, hlv, hlp, hdist, hv, hp, htot⟩ := applyE_new_final dist n m order hm hperm
  have hlen : order.length = n := perm_length hperm
  have hbgt := segE_succ_gt hm hj
  have hble := segE_le m n (j + 1)
  have hlen2 : (reverseBlock order (j * m) (segE m n (j + 1))).length = n := by
    rw [length_reverseBlock order _ _ (le_of_lt hbgt) (by omega), hlen]
  refine ⟨t', hok, ?_, ?_, ?_, ?_, ?_⟩
  · exact succAt_reversed hm hmn hperm hv hp hj
  · exact (reverseBlock_perm order _ _ (le_of_lt hbgt) (by omega)).trans hperm
  · intro k hk
    exact walk_rotation _ _ n hlen2 (by omega)
      (succAt_reversed hm hmn hperm hv hp hj) k hk
  · exact succAt_double_rev hm hmn hperm hv hp hj
  · intro hEq
    rw [hEq]
    exact reverseBlock_singleton order (j * m)


/-- C5: the `panic!` arm of `between` is unreachable: pointer equality on
parent handles is transitive, so exactly two of the three pairwise
same-segment tests can never hold and `between` always returns an ordinary
boolean. -/
theorem C5_test {S : Type} (t : TwoLevelTree S) (fromv midv tov : TltVertex) :
    (TwoLevelTree.betweenV t fromv midv tov).isOk = true := by
  cases h1 : (fromv.parent == midv.parent) <;>
    cases h2 : (midv.parent == tov.parent) <;>
      cases h3 : (tov.parent == fromv.parent) <;>
        simp only [TwoLevelTree.betweenV, h1, h2, h3] <;>
          first
            | rfl
            | simp_all

/-- C6: with a live parent, `next` resolves through the stored `next` link
and `prev` through the stored `prev` link when the segment is forward, and
the two swap when the segment is reversed; a detached vertex yields no
result. -/
theorem C6_test {S : Type} :
    (∀ (t : TwoLevelTree S) (v : TltVertex) (pj : Nat) (p : ParentVertex),
      v.parent = some pj → t.parents[pj]? = some p →
        TwoLevelTree.nextV t v =
          (if p.reverse then v.prev else v.next).bind (fun k => t.vertices[k]?) ∧
        TwoLevelTree.prevV t v =
          (if p.reverse then v.next else v.prev).bind (fun k => t.vertices[k]?)) ∧
    (∀ (t : TwoLevelTree S) (v : TltVertex), v.parent = none →
      TwoLevelTree.nextV t v = none ∧ TwoLevelTree.prevV t v = none) := by
  constructor
  · intro t v pj p h1 h2
    constructor
    · simp only [TwoLevelTree.nextV, h1, h2]
      cases hr : p.reverse
      · simp only [Bool.false_eq_true, if_false]
        cases v.next <;> rfl
      · simp only [if_true]
        cases v.prev <;> rfl
    · simp only [TwoLevelTree.prevV, h1, h2]
      cases hr : p.reverse
      · simp only [Bool.false_eq_true, if_false]
        cases v.prev <;> rfl
      · simp only [if_true]
        cases v.next <;> rfl
  · intro t v h
    constructor <;> simp [TwoLevelTree.nextV, TwoLevelTree.prevV, h]


theorem C6_test_witness :
    TwoLevelTree.nextV tinyRev { seq_id := 0, node := 0, visited := false, prev := some 1, next := some 1, parent := some 0 } = some { seq_id := 1, node := 1, visited := false, prev := some 0, next := some 0, parent := some 0 } := by
  have h := (C6_test (S := Nat)).1 tinyRev
    { seq_id := 0, node := 0, visited := false, prev := some 1, next := some 1, parent := some 0 }
    0
    { id := 0, size := 2, max_size := 2, reverse := true, prev := some 0, next := some 0, first := some 0, last := some 1 }
    rfl rfl
  rw [h.1]
  rfl

/-- C10: `visited_at` on an in-range index rewrites exactly that vertex's
`visited` flag, leaving every other vertex, the parents and the cached
total unchanged; on an out-of-range index the unchecked `Vec` access
panics instead of returning a checked absence. -/
theorem C10_test {S : Type} (t : TwoLevelTree S) (idx : Nat) (flag : Bool) :
    (idx < t.vertices.length →
      ∃ t2, TwoLevelTree.visited_at t idx flag = .ok t2 ∧
        t2.vertices[idx]? = (t.vertices[idx]?).map (fun v => { v with visited := flag }) ∧
        (∀ i2, i2 ≠ idx → t2.vertices[i2]? = t.vertices[i2]?) ∧
        t2.parents = t.parents ∧ t2.total_dist = t.total_dist) ∧
    (t.vertices.length ≤ idx → TwoLevelTree.visited_at t idx flag = .error ()) := by
  constructor
  · intro hlt
    refine ⟨t.modV idx (fun v => { v with visited := flag }), ?_, ?_, ?_, rfl, rfl⟩
    · rw [TwoLevelTree.visited_at, if_pos hlt]
    · simp [TwoLevelTree.modV, getElem?_listModify]
    · intro i2 hne
      simp [TwoLevelTree.modV, getElem?_listModify, hne]
  · intro hge
    rw [TwoLevelTree.visited_at, if_neg (by omega)]

theorem C10_test_witness :
    (∃ t2, TwoLevelTree.visited_at tinyRev 1 true = .ok t2 ∧
      t2.vertices[1]? = (tinyRev.vertices[1]?).map (fun v => { v with visited := true }) ∧
      (∀ i2, i2 ≠ 1 → t2.vertices[i2]? = tinyRev.vertices[i2]?) ∧
      t2.parents = tinyRev.parents ∧ t2.total_dist = tinyRev.total_dist) ∧
    TwoLevelTree.visited_at tinyRev 5 true = .error () := by
  constructor
  · exact (C10_test tinyRev 1 true).1 (by simp [tinyRev])
  · exact (C10_test tinyRev 5 true).2 (by simp [tinyRev])

/-- C8 counterexample: `between_at` with the out-of-range index 99 answers
the same plain `Ok(false)` as an ordinary in-range negative query, not a
distinguishable "no result". -/
theorem C8_test : (applyE (List.range 10) (TwoLevelTree.new zeroDist 10 4)).map
    (fun t => (TwoLevelTree.between_at t 1 99 4, TwoLevelTree.between_at t 1 5 4)) =
    .ok (.ok false, .ok false) := by
  rfl

/-- C8 amended: `get`, `next_at` and `prev_at` do return `None` on any
out-of-range index, but `between_at` collapses an out-of-range index to the
default answer `false`. -/
theorem C8_amended_test {S : Type} (t : TwoLevelTree S) (idx a b c : Nat) :
    (t.vertices.length ≤ idx →
      TwoLevelTree.get t idx = none ∧ TwoLevelTree.next_at t idx = none ∧
        TwoLevelTree.prev_at t idx = none) ∧
    (t.vertices.length ≤ a ∨ t.vertices.length ≤ b ∨ t.vertices.length ≤ c →
      TwoLevelTree.between_at t a b c = .ok false) := by
  constructor
  · intro h
    have hn : t.vertices[idx]? = none := List.getElem?_eq_none h
    refine ⟨hn, ?_, ?_⟩
    · rw [TwoLevelTree.next_at, hn]
    · rw [TwoLevelTree.prev_at, hn]
  · intro h
    rw [TwoLevelTree.between_at]
    rcases h with h | h | h
    · simp only [show TwoLevelTree.get t a = none from List.getElem?_eq_none h]
      try first
        | rfl
        | (cases TwoLevelTree.get t b <;> cases TwoLevelTree.get t c <;> rfl)
    · simp only [show TwoLevelTree.get t b = none from List.getElem?_eq_none h]
      try first
        | rfl
        | (cases TwoLevelTree.get t a <;> cases TwoLevelTree.get t c <;> rfl)
    · simp only [show TwoLevelTree.get t c = none from List.getElem?_eq_none h]
      try first
        | rfl
        | (cases TwoLevelTree.get t a <;> cases TwoLevelTree.get t b <;> rfl)

theorem C8_amended_test_witness :
    (TwoLevelTree.get tinyRev 7 = none ∧ TwoLevelTree.next_at tinyRev 7 = none ∧
      TwoLevelTree.prev_at tinyRev 7 = none) ∧
    TwoLevelTree.between_at tinyRev 0 1 7 = .ok false := by
  constructor
  · exact (C8_amended_test tinyRev 7 0 1 7).1 (by simp [tinyRev])
  · exact (C8_amended_test tinyRev 7 0 1 7).2 (by simp [tinyRev])

/-- C4 counterexample: `apply` silently accepts an order with a duplicate
entry (not a permutation) on a four-node tree. -/
theorem C4_test : (applyE [0, 0, 2, 3] (TwoLevelTree.new zeroDist 4 2)).isOk = true := by
  rfl

/-- C4 amended: `apply` performs no permutation or length validation: it
panics only when the order is shorter than the node count or one of its
first `n` entries is out of range; duplicates and overlong orders are
accepted silently, and every true permutation succeeds. -/
theorem C4_amended_test :
    (applyE [0, 1, 2] (TwoLevelTree.new zeroDist 4 2)).isOk = false ∧
    (applyE [0, 1, 2, 7] (TwoLevelTree.new zeroDist 4 2)).isOk = false ∧
    (applyE [0, 1, 2, 3, 4, 5] (TwoLevelTree.new zeroDist 4 2)).isOk = true ∧
    (∀ {S : Type} [inst1 : Add S] [inst2 : Zero S] (dist : Nat → Nat → S) (n m : Nat)
      (order : List Nat), 0 < m → order.Perm (List.range n) →
      (applyE order (TwoLevelTree.new dist n m)).isOk = true) := by
  refine ⟨rfl, rfl, rfl, ?_⟩
  intro S _ _ dist n m order hm hperm
  obtain ⟨t', hok, _⟩ := applyE_new_final dist n m order hm hperm
  rw [hok]
  rfl

theorem C4_amended_test_witness :
    (applyE [1, 0] (TwoLevelTree.new zeroDist 2 1)).isOk = true :=
  C4_amended_test.2.2.2 zeroDist 2 1 [1, 0] (by decide) (by decide)


/-- C2 bug: when all three vertices share a segment, `between` returns the
bare modular betweenness of the stored sequence ids, never XORing with the
segment's `reverse` flag; on a 10-node tour with segment `{3,4,5}`
reversed, `between_at 3 4 5` answers `true` although the logical walk from
3 reaches 5 strictly before 4. -/
theorem C2_test :
    (∀ {S : Type} (t : TwoLevelTree S) (f mi to1 : TltVertex),
      (f.parent == mi.parent) = true → (mi.parent == to1.parent) = true →
      TwoLevelTree.betweenV t f mi to1 = .ok (between f.seq_id mi.seq_id to1.seq_id)) ∧
    (∃ t', applyE (List.range 10) (TwoLevelTree.new zeroDist 10 3) = .ok t' ∧
      TwoLevelTree.walkIdx (TwoLevelTree.parentReverse t' 1) 10 3 =
        [3, 6, 7, 8, 9, 0, 1, 2, 5, 4] ∧
      TwoLevelTree.between_at (TwoLevelTree.parentReverse t' 1) 3 4 5 = .ok true) := by
  constructor
  · intro S t f mi to1 h1 h2
    have h3 : (to1.parent == f.parent) = true := by
      rw [beq_iff_eq] at h1 h2 ⊢
      rw [h2] at h1
      exact h1.symm
    simp only [TwoLevelTree.betweenV, h1, h2, h3]
  · exact ⟨_, rfl, rfl, rfl⟩

theorem C2_test_witness :
    TwoLevelTree.betweenV tinyRev
        { seq_id := 0, node := 0, visited := false, prev := some 1, next := some 1, parent := some 0 }
        { seq_id := 1, node := 1, visited := false, prev := some 0, next := some 0, parent := some 0 }
        { seq_id := 0, node := 0, visited := false, prev := some 1, next := some 1, parent := some 0 } =
      .ok (between 0 1 0) := by
  have h := C2_test.1 tinyRev
    { seq_id := 0, node := 0, visited := false, prev := some 1, next := some 1, parent := some 0 }
    { seq_id := 1, node := 1, visited := false, prev := some 0, next := some 0, parent := some 0 }
    { seq_id := 0, node := 0, visited := false, prev := some 1, next := some 1, parent := some 0 }
    rfl rfl
  exact h

/-- C3: `TwoLevelTree::flip_at` is unimplemented (`todo!()`) and panics on
every input; the spec-level flip on tour orders does satisfy the
round-trip — on the natural 100-node order, `flip(3,4,8,9)` then the
re-cut `flip(3,8,4,9)` is the identity — and succeeds on any four nodes
forming two distinct existing tour edges. -/
theorem C3_test :
    (∀ {S : Type} (t : TwoLevelTree S) (fa fb ta tb : Nat),
      (flip_at t fa fb ta tb).isOk = false) ∧
    (∃ l1, flipOrder (List.range 100) 3 4 8 9 = some l1 ∧
      flipOrder l1 3 8 4 9 = some (List.range 100)) ∧
    (∀ (l : List Nat) (a b c d : Nat),
      a ∈ l → c ∈ l →
      l.getD ((l.indexOf a + 1) % l.length) 0 = b →
      l.getD ((l.indexOf c + 1) % l.length) 0 = d →
      l.indexOf a ≠ l.indexOf c →
      (flipOrder l a b c d).isSome = true) := by
  refine ⟨fun t fa fb ta tb => rfl, ⟨_, rfl, ?_⟩, ?_⟩
  · rfl
  · intro l a b c d h1 h2 h3 h4 h5
    simp only [flipOrder]
    rw [if_pos ⟨h1, h2, h3, h4, h5⟩]
    rfl

theorem C3_test_witness :
    (flipOrder [0, 1, 2, 3] 0 1 2 3).isSome = true :=
  C3_test.2.2 [0, 1, 2, 3] 0 1 2 3 (by decide) (by decide) (by decide) (by decide) (by decide)


/-- C7: after `apply` the cached total is the cyclic sum of consecutive
distances, and on the four grid nodes the two spec scenarios evaluate to
`6·√2` and `8·√2`. -/
theorem C7_test :
    (∀ {S : Type} [inst1 : Add S] [inst2 : Zero S] (dist : Nat → Nat → S) (n m : Nat)
      (order : List Nat), 0 < m → order.Perm (List.range n) →
      ∃ t', applyE order (TwoLevelTree.new dist n m) = .ok t' ∧
        TwoLevelTree.total_distance t' = partialSum dist order n n) ∧
    (applyE [0, 1, 2, 3] (TwoLevelTree.new gridDist 4 2)).map TwoLevelTree.total_distance =
      .ok (6 * Real.sqrt 2) ∧
    (applyE [1, 3, 0, 2] (TwoLevelTree.new gridDist 4 2)).map TwoLevelTree.total_distance =
      .ok (8 * Real.sqrt 2) := by
  have key : ∀ x y : ℝ, Real.sqrt ((x - y) ^ 2 + (x - y) ^ 2) = |x - y| * Real.sqrt 2 := by
    intro x y
    rw [show (x - y) ^ 2 + (x - y) ^ 2 = (x - y) ^ 2 * 2 by ring,
      Real.sqrt_mul (sq_nonneg _), Real.sqrt_sq_eq_abs]
  have hg : ∀ i j : Nat, gridDist i j = |(i : ℝ) - (j : ℝ)| * Real.sqrt 2 := by
    intro i j
    simp only [gridDist]
    exact key _ _
  refine ⟨?_, ?_, ?_⟩
  · intro S _ _ dist n m order hm hperm
    obtain ⟨t', hok, _, _, _, _, _, htot⟩ := applyE_new_final dist n m order hm hperm
    exact ⟨t', hok, htot⟩
  · obtain ⟨t', hok, _, _, _, _, _, htot⟩ :=
      applyE_new_final gridDist 4 2 [0, 1, 2, 3] (by omega) (by decide)
    rw [hok]
    have hval : TwoLevelTree.total_distance t' = 6 * Real.sqrt 2 := by
      show t'.total_dist = 6 * Real.sqrt 2
      rw [htot]
      norm_num [partialSum, List.range_succ, hg]
      ring
    rw [show Except.map TwoLevelTree.total_distance (Except.ok t') =
      Except.ok (TwoLevelTree.total_distance t') from rfl, hval]
  · obtain ⟨t', hok, _, _, _, _, _, htot⟩ :=
      applyE_new_final gridDist 4 2 [1, 3, 0, 2] (by omega) (by decide)
    rw [hok]
    have hval : TwoLevelTree.total_distance t' = 8 * Real.sqrt 2 := by
      show t'.total_dist = 8 * Real.sqrt 2
      rw [htot]
      norm_num [partialSum, List.range_succ, hg]
      ring
    rw [show Except.map TwoLevelTree.total_distance (Except.ok t') =
      Except.ok (TwoLevelTree.total_distance t') from rfl, hval]

theorem C7_test_witness :
    ∃ t', applyE [0, 1] (TwoLevelTree.new zeroDist 2 1) = .ok t' ∧
      TwoLevelTree.total_distance t' = partialSum zeroDist [0, 1] 2 2 :=
  C7_test.1 zeroDist 2 1 [0, 1] (by decide) (by decide)

theorem C1_amended_test_witness :
    ∃ t', applyE [1, 0, 2] (TwoLevelTree.new zeroDist 3 2) = .ok t' ∧
      ∀ start, start < 3 → ∃ k, k < 3 ∧ ([1, 0, 2] : List Nat).getD k 0 = start ∧
        TwoLevelTree.walkIdx t' 4 start =
          (([1, 0, 2] : List Nat).drop k ++ ([1, 0, 2] : List Nat).take k) ++ [start] ∧
        (([1, 0, 2] : List Nat).drop k ++ ([1, 0, 2] : List Nat).take k).Perm (List.range 3) :=
  C1_amended_test zeroDist 3 2 [1, 0, 2] (by decide) (by decide)

theorem C9_amended_test_witness :
    ∃ t', applyE (List.range 10) (TwoLevelTree.new zeroDist 10 3) = .ok t' ∧
      (∀ i, i < 10 →
        TwoLevelTree.succAt (TwoLevelTree.parentReverse t' 1)
            ((reverseBlock (List.range 10) (1 * 3) (segE 3 10 (1 + 1))).getD i 0) =
          some ((reverseBlock (List.range 10) (1 * 3) (segE 3 10 (1 + 1))).getD ((i + 1) % 10) 0)) ∧
      (reverseBlock (List.range 10) (1 * 3) (segE 3 10 (1 + 1))).Perm (List.range 10) ∧
      (∀ k, k < 10 →
        TwoLevelTree.walkIdx (TwoLevelTree.parentReverse t' 1) (10 + 1)
            ((reverseBlock (List.range 10) (1 * 3) (segE 3 10 (1 + 1))).getD k 0) =
          ((reverseBlock (List.range 10) (1 * 3) (segE 3 10 (1 + 1))).drop k ++
              (reverseBlock (List.range 10) (1 * 3) (segE 3 10 (1 + 1))).take k) ++
            [(reverseBlock (List.range 10) (1 * 3) (segE 3 10 (1 + 1))).getD k 0]) ∧
      (∀ i, i < 10 →
        TwoLevelTree.succAt
            (TwoLevelTree.parentReverse (TwoLevelTree.parentReverse t' 1) 1)
          ((List.range 10).getD i 0) = some ((List.range 10).getD ((i + 1) % 10) 0)) ∧
      (segE 3 10 (1 + 1) = 1 * 3 + 1 →
        reverseBlock (List.range 10) (1 * 3) (segE 3 10 (1 + 1)) = List.range 10) :=
  C9_amended_test zeroDist 10 3 (List.range 10) (by decide) (by decide)
    (List.Perm.refl _) 1 (by decide)

end Cykl
